import Mathlib

/-!
# sac2tnk: the packetizer of `src/src/sac2tnk.c`

A shallow embedding of `main` and `proc_argv`: the chunking loop of `main`
(lines 179-218), the option loop and the checks of `proc_argv` (lines 296-392),
the identification fields of the header (lines 122-142, with `trim_string`),
the sample rate (lines 151-157) and `main` as a whole, followed by the
properties proved about them.  What `main` takes from the C library and from
`sac.h`/`sachead.h` is a parameter (`Extern`).

Modelling conventions
* `float`/`double` values (samples, `GapValue`, `Multiplier`, times, `delta`)
  are rationals `ℚ`; infinities and NaN are outside the model.  The `float`
  product of line 196 and the `double` divisions of lines 152 and 156 are the
  rounded operations of the platform, the parameters `fmul` and `ddiv`; the
  sums and products of the time arithmetic of lines 189, 206 and 207 are exact.
* The counters `i` and `nsamp` start at 0 and are only incremented, so they are
  natural numbers; `MaxSample` comes from the command line and is an `Int`.
* `seis_ptr`/`npts` are one list: the samples from `*seis_ptr` to the end of the
  array, whose length is `npts`.
* `char` arrays are lists of characters, NUL being `Char.ofNat 0`.
-/

namespace Sac2tnk

/-! ## Constants of `trace_buf.h` -/

/-- `MAX_TRACEBUF_SIZ`: the maximum size of a tracebuf message. -/
def MAX_TRACEBUF_SIZ : Nat := 4096

/-- `TRACE2_STA_LEN` -/
def TRACE2_STA_LEN : Nat := 7

/-- `TRACE2_NET_LEN` -/
def TRACE2_NET_LEN : Nat := 9

/-- `TRACE2_CHAN_LEN` -/
def TRACE2_CHAN_LEN : Nat := 4

/-- `TRACE2_LOC_LEN` -/
def TRACE2_LOC_LEN : Nat := 3

/-- The NUL character. -/
def NUL : Char := Char.ofNat 0

/-- `LOC_NULL_STRING`, the text `--`. -/
def LOC_NULL_STRING : List Char := ['-', '-']

/-- The fields of `TRACE2_HEADER` (trace_buf.h, lines 92-107), in declaration order. -/
structure TRACE2_HEADER where
  pinno : Int
  nsamp : Nat
  starttime : ℚ
  endtime : ℚ
  samprate : ℚ
  sta : List Char
  net : List Char
  chan : List Char
  loc : List Char
  version : List Char
  datatype : List Char
  quality : List Char
  pad : List Char
deriving DecidableEq

/-- `sizeof(TRACE2_HEADER)`: two `int`, three `double`, then the character
arrays `sta`, `net`, `chan`, `loc`, `version[2]`, `datatype[3]`, `quality[2]`,
`pad[2]`; the total is a multiple of 8, so there is no padding. -/
def sizeof_TRACE2_HEADER : Nat :=
  4 + 4 + 8 + 8 + 8 + TRACE2_STA_LEN + TRACE2_NET_LEN + TRACE2_CHAN_LEN + TRACE2_LOC_LEN
    + 2 + 3 + 2 + 2

/-- What one `fwrite(&outbuf, size, 1, ofp)` appends to the output: the header
and the `nsamp` 32-bit integers that follow it in `outbuf`. -/
structure TracePacket where
  trh2 : TRACE2_HEADER
  data : List Int
deriving DecidableEq

/-- The `size` of line 210: `sizeof(TRACE2_HEADER) + nsamp * sizeof(int32_t)`. -/
def TracePacket.size (p : TracePacket) : Nat :=
  sizeof_TRACE2_HEADER + p.trh2.nsamp * 4

/-! ## The chunking loop of `main` -/

/-- The conversion `(int32_t)x` of line 196: the fractional part is discarded
(truncation toward zero) when the result is inside the `int32_t` range.
Outside the range C leaves the conversion undefined; the conversion
instruction of the x86 processors stores `INT32_MIN`, and so does the model. -/
def int32_cast (x : ℚ) : Int :=
  if -2147483648 ≤ Int.tdiv x.num x.den ∧ Int.tdiv x.num x.den ≤ 2147483647 then
    Int.tdiv x.num x.den
  else -2147483648

/-- The variables of `main` that the `for` loop of lines 185-204 reads and writes. -/
structure ForState where
  seis_ptr : List ℚ
  i : Nat
  seis_min : ℚ
  seis_max : ℚ
  trh2 : TRACE2_HEADER
  ldata : List Int
deriving DecidableEq

/-- The `for` loop of lines 185-204, from the state reached after some
iterations.  `ldata` lists the values stored through `ldata_ptr` since line 183
reset it.  The loop ends when its condition
`outbuf.trh2.nsamp < MaxSample && npts > 0` fails, or at the `break` of line 202.
`fmul` is the multiplication of two `float` values, whose result is rounded to
`float`: `fmul Multiplier v` is the `Multiplier * (*seis_ptr)` of line 196. -/
def forLoop (fmul : ℚ → ℚ → ℚ) (MaxSample : Int) (Multiplier GapValue starttime delta : ℚ) :
    List ℚ → Nat → ℚ → ℚ → TRACE2_HEADER → List Int → ForState
  | [], i, seis_min, seis_max, trh2, ldata => ⟨[], i, seis_min, seis_max, trh2, ldata⟩
  | v :: rest, i, seis_min, seis_max, trh2, ldata =>
    if (trh2.nsamp : Int) < MaxSample then
      if v ≠ GapValue then
        let trh2a : TRACE2_HEADER :=
          if trh2.nsamp = 0 then { trh2 with starttime := starttime + delta * i } else trh2
        let seis_min1 := if v < seis_min then v else seis_min
        let seis_max1 := if v < seis_min then seis_max else if v > seis_max then v else seis_max
        forLoop fmul MaxSample Multiplier GapValue starttime delta rest (i + 1) seis_min1 seis_max1
          { trh2a with nsamp := trh2a.nsamp + 1 } (ldata ++ [int32_cast (fmul Multiplier v)])
      else if trh2.nsamp ≠ 0 then
        ⟨v :: rest, i, seis_min, seis_max, trh2, ldata⟩
      else
        forLoop fmul MaxSample Multiplier GapValue starttime delta rest (i + 1) seis_min seis_max
          trh2 ldata
    else
      ⟨v :: rest, i, seis_min, seis_max, trh2, ldata⟩

/-- The variables of `main` that live across iterations of the `while` loop of
lines 179-218, and `ofp`, the packets written so far. -/
structure MainState where
  seis_ptr : List ℚ
  starttime : ℚ
  seis_min : ℚ
  seis_max : ℚ
  trh2 : TRACE2_HEADER
  ofp : List TracePacket
deriving DecidableEq

/-- One pass through the body of the `while` loop (lines 181-217), every
`fwrite` succeeding. -/
def whileBody (fmul : ℚ → ℚ → ℚ) (MaxSample : Int) (Multiplier GapValue delta : ℚ) (s : MainState) : MainState :=
  let trh2 : TRACE2_HEADER := { s.trh2 with pinno := 0, nsamp := 0 }
  let f := forLoop fmul MaxSample Multiplier GapValue s.starttime delta
    s.seis_ptr 0 s.seis_min s.seis_max trh2 []
  let starttime := s.starttime + delta * f.i
  let trh2b : TRACE2_HEADER := { f.trh2 with endtime := starttime - delta }
  let ofp := if trh2b.nsamp ≠ 0 then s.ofp ++ [⟨trh2b, f.ldata.take trh2b.nsamp⟩] else s.ofp
  ⟨f.seis_ptr, starttime, f.seis_min, f.seis_max, trh2b, ofp⟩

/-- The `while ( npts > 0 )` loop of lines 179-218, allowed at most `fuel`
passes through its body: `some` of the state in which the loop is left, `none`
when `fuel` passes do not reach `npts == 0`. -/
def whileLoop (fmul : ℚ → ℚ → ℚ) (MaxSample : Int) (Multiplier GapValue delta : ℚ) :
    Nat → MainState → Option MainState
  | 0, s => if s.seis_ptr = [] then some s else none
  | fuel + 1, s =>
    if s.seis_ptr = [] then some s
    else whileLoop fmul MaxSample Multiplier GapValue delta fuel
      (whileBody fmul MaxSample Multiplier GapValue delta s)

/-- The state in which `main` enters the loop (lines 78-79, 113, 177): the
header template `tmpl` filled by lines 120-159, `starttime` the reference time
plus `sh.b`, `seis` the `npts` samples of the file, nothing written yet. -/
def initState (tmpl : TRACE2_HEADER) (starttime : ℚ) (seis : List ℚ) : MainState :=
  ⟨seis, starttime, 0, 0, tmpl, []⟩

/-- The packets `main` writes for the samples `seis`, when the loop is left
within `fuel` passes. -/
def packets (fmul : ℚ → ℚ → ℚ) (MaxSample : Int) (Multiplier GapValue delta : ℚ) (tmpl : TRACE2_HEADER)
    (starttime : ℚ) (seis : List ℚ) (fuel : Nat) : Option (List TracePacket) :=
  (whileLoop fmul MaxSample Multiplier GapValue delta fuel (initState tmpl starttime seis)).map
    MainState.ofp

/-- The checks at the end of `proc_argv` (lines 374-391), on the values the
option loop has left in `InputFile` and `MaxSample`: the status returned.  The
comparison of line 383 is made in `size_t`; it is reached only with
`MaxSample >= 1`, where the conversion changes nothing. -/
def proc_argv_check (InputFile : Option String) (MaxSample : Int) : Int :=
  if InputFile = none then -2
  else if MaxSample < 1 then -2
  else if MaxSample > (((MAX_TRACEBUF_SIZ - sizeof_TRACE2_HEADER) / 4 : Nat) : Int) then -2
  else 0

/-- A `float` product for examples: the product without rounding. -/
def exampleMul (a b : ℚ) : ℚ := a * b

/-- A `double` quotient for examples: the quotient without rounding. -/
def exampleDiv (a b : ℚ) : ℚ := a / b

/-- A header template for examples: station `STA`, channel `EHZ`, network `TW`,
location `--`, version `20`, datatype `i4`, sample rate 100 Hz. -/
def exampleHeader : TRACE2_HEADER :=
  ⟨0, 0, 0, 0, 100, ['S', 'T', 'A', NUL, NUL, NUL, NUL],
    ['T', 'W', NUL, NUL, NUL, NUL, NUL, NUL, NUL], ['E', 'H', 'Z', NUL],
    LOC_NULL_STRING ++ [NUL], ['2', '0'], ['i', '4', NUL], [NUL, NUL], [NUL, NUL]⟩

/-! ## The location code of the header (lines 139-142 of `main`) -/

/-- The C string that starts a character buffer: the characters before the
first NUL. -/
def cstr (buf : List Char) : List Char :=
  buf.takeWhile (fun c => c ≠ NUL)

/-- `strncpy(dst, src, n)`: the `n` characters stored at `dst`, which are the
characters of the string at `src`, at most `n` of them, followed by NULs up to
`n` characters. -/
def strncpy (src : List Char) (n : Nat) : List Char :=
  (cstr src).take n ++ List.replicate (n - ((cstr src).take n).length) NUL

/-- `isspace` in the C locale: space, `\t`, `\n`, `\v`, `\f`, `\r`. -/
def isspace (c : Char) : Bool :=
  c = ' ' || (9 ≤ c.toNat && c.toNat ≤ 13)

/-- `trim_string(str, size)` (lines 247-259): when the first character is not
NUL, every space or NUL character at the end of the first `size` characters is
overwritten with NUL, from the last one backwards. -/
def trim_string (str : List Char) (size : Nat) : List Char :=
  match str with
  | [] => []
  | c :: cs =>
    if c = NUL then c :: cs
    else
      let buf := (c :: cs).take size
      let kept := (buf.reverse.dropWhile (fun x => isspace x || x = NUL)).reverse
      kept ++ List.replicate (buf.length - kept.length) NUL ++ (c :: cs).drop size

/-- `strcmp(a, b)`: 0 when the two strings are equal, otherwise negative or
positive as the first is the lesser or the greater. -/
def strcmp (a b : List Char) : Int :=
  if cstr a = cstr b then 0 else if cstr a < cstr b then -1 else 1

/-- Lines 139-142 of `main`: the three characters of `outbuf.trh2.loc` after
them.  `khole` is `sh.khole` as `sac_scnl_modify` left it; `K_LEN` and
`SACSTRUNDEF` are constants of `sachead.h`.  `outbuf` was zeroed in line 120
and `version` is set only in line 145, so the two characters after `loc` are
still NUL when `strcmp` reads the string at `loc`. -/
def main_loc (K_LEN : Nat) (SACSTRUNDEF khole : List Char) : List Char :=
  let n := if TRACE2_LOC_LEN > K_LEN then K_LEN else TRACE2_LOC_LEN
  let loc0 := strncpy khole n ++ List.replicate (TRACE2_LOC_LEN - n) NUL
  let loc1 := trim_string loc0 TRACE2_LOC_LEN
  if strcmp (loc1 ++ [NUL, NUL]) SACSTRUNDEF ≠ 0 ∧ strcmp (loc1 ++ [NUL, NUL]) [' ', ' '] ≠ 0 then
    LOC_NULL_STRING ++ [NUL]
  else
    loc1

/-- The location code that lines 139-140 leave in `loc` before the test of
line 141: the first characters of `khole`, trimmed. -/
def trimmed_loc (K_LEN : Nat) (khole : List Char) : List Char :=
  let n := if TRACE2_LOC_LEN > K_LEN then K_LEN else TRACE2_LOC_LEN
  trim_string (strncpy khole n ++ List.replicate (TRACE2_LOC_LEN - n) NUL) TRACE2_LOC_LEN

/-! ## The station, network and channel codes of the header (lines 122-137) -/

/-- Lines 122-123 of `main`: the seven characters of `outbuf.trh2.sta` after
them, `kstnm` being `sh.kstnm` as `sac_scnl_modify` left it. -/
def main_sta (K_LEN : Nat) (kstnm : List Char) : List Char :=
  let n := if TRACE2_STA_LEN > K_LEN then K_LEN else TRACE2_STA_LEN
  trim_string (strncpy kstnm n ++ List.replicate (TRACE2_STA_LEN - n) NUL) TRACE2_STA_LEN

/-- Lines 136-137 of `main`: the nine characters of `outbuf.trh2.net` after
them, `knetwk` being `sh.knetwk` as `sac_scnl_modify` left it. -/
def main_net (K_LEN : Nat) (knetwk : List Char) : List Char :=
  let n := if TRACE2_NET_LEN > K_LEN then K_LEN else TRACE2_NET_LEN
  trim_string (strncpy knetwk n ++ List.replicate (TRACE2_NET_LEN - n) NUL) TRACE2_NET_LEN

/-- The channel code that lines 125-126 leave in `chan` before the test of
line 127: the first characters of `kcmpnm`, trimmed. -/
def trimmed_chan (K_LEN : Nat) (kcmpnm : List Char) : List Char :=
  let n := if TRACE2_CHAN_LEN > K_LEN then K_LEN else TRACE2_CHAN_LEN
  trim_string (strncpy kcmpnm n ++ List.replicate (TRACE2_CHAN_LEN - n) NUL) TRACE2_CHAN_LEN

/-- Lines 125-134 of `main`: the four characters of `outbuf.trh2.chan` after
them, `kcmpnm` being `sh.kcmpnm` as `sac_scnl_modify` left it.  With
`SeisanChanFix` set, `chan[2] = chan[3]` and then `chan[3] = 0`. -/
def main_chan (K_LEN : Nat) (SeisanChanFix : Bool) (kcmpnm : List Char) : List Char :=
  let n := if TRACE2_CHAN_LEN > K_LEN then K_LEN else TRACE2_CHAN_LEN
  let chan0 := strncpy kcmpnm n ++ List.replicate (TRACE2_CHAN_LEN - n) NUL
  let chan1 := trim_string chan0 TRACE2_CHAN_LEN
  if SeisanChanFix then (chan1.set 2 (chan1.getD 3 NUL)).set 3 NUL else chan1

/-! ## The command line (`proc_argv`) and `main` -/

/-- `MAX_SCNL_CODE_LEN` of sac2tnk.c. -/
def MAX_SCNL_CODE_LEN : Nat := 8

/-- `DEF_MAX_SAMPS` of sac2tnk.c. -/
def DEF_MAX_SAMPS : Int := 100

/-- The file-scope variables of sac2tnk.c (lines 51-63); a pointer that is
`NULL` is `none`. -/
structure Globals where
  InputFile : Option String
  OutputFile : Option String
  NewSta : Option String
  NewChan : Option String
  NewNet : Option String
  NewLoc : Option String
  MaxSample : Int
  NewSampRate : ℚ
  Multiplier : ℚ
  GapValue : ℚ
  SeisanChanFix : Bool
  AppendOutput : Bool
deriving DecidableEq

/-- The initial values of lines 51-63; `SACUNDEF` is a constant of `sachead.h`. -/
def Globals.init (SACUNDEF : ℚ) : Globals :=
  ⟨none, none, none, none, none, none, DEF_MAX_SAMPS, 0, 1, SACUNDEF, false, false⟩

/-- How the option loop of `proc_argv` (lines 299-372) ends: the process has
exited (`-v`, `-h`), `proc_argv` has returned from inside the loop, or the loop
is left for the checks of lines 374-391. -/
inductive ArgLoop where
  | exited (status : Int)
  | returned (status : Int) (g : Globals)
  | left (g : Globals)
deriving DecidableEq

/-- The option loop of `proc_argv` (lines 299-372) from `argv[i]` on, the list
being `argv[i], ..., argv[argc-1]`.  `atoi` and `atof` are the C library
functions.  An option that takes a value and stands last reads `argv[argc]`,
which is `NULL`: the behaviour is undefined and the model gives `none`. -/
def argLoop (atoi : String → Int) (atof : String → ℚ) : List String → Globals → Option ArgLoop
  | [], g => some (ArgLoop.left g)
  | a :: rest, g =>
    if a = "-v" then some (ArgLoop.exited 0)
    else if a = "-h" then some (ArgLoop.exited 0)
    else if a = "-N" then
      match rest with
      | [] => none
      | v :: rest1 =>
        if v.utf8ByteSize > MAX_SCNL_CODE_LEN then some (ArgLoop.returned (-1) g)
        else argLoop atoi atof rest1 { g with NewNet := some v }
    else if a = "-S" then
      match rest with
      | [] => none
      | v :: rest1 =>
        if v.utf8ByteSize > MAX_SCNL_CODE_LEN then some (ArgLoop.returned (-1) g)
        else argLoop atoi atof rest1 { g with NewSta := some v }
    else if a = "-C" then
      match rest with
      | [] => none
      | v :: rest1 =>
        if v.utf8ByteSize > MAX_SCNL_CODE_LEN then some (ArgLoop.returned (-1) g)
        else argLoop atoi atof rest1 { g with NewChan := some v }
    else if a = "-L" then
      match rest with
      | [] => none
      | v :: rest1 =>
        if v.utf8ByteSize > MAX_SCNL_CODE_LEN then some (ArgLoop.returned (-1) g)
        else argLoop atoi atof rest1 { g with NewLoc := some v }
    else if a = "-s" then
      match rest with
      | [] => none
      | v :: rest1 => argLoop atoi atof rest1 { g with NewSampRate := atof v }
    else if a = "-c" then argLoop atoi atof rest { g with SeisanChanFix := true }
    else if a = "-n" then
      match rest with
      | [] => none
      | v :: rest1 => argLoop atoi atof rest1 { g with MaxSample := atoi v }
    else if a = "-m" then
      match rest with
      | [] => none
      | v :: rest1 => argLoop atoi atof rest1 { g with Multiplier := atof v }
    else if a = "-g" then
      match rest with
      | [] => none
      | v :: rest1 => argLoop atoi atof rest1 { g with GapValue := atof v }
    else if a = "-a" then argLoop atoi atof rest { g with AppendOutput := true }
    else
      match rest with
      | [] => some (ArgLoop.left { g with InputFile := some a, OutputFile := none })
      | [o] => some (ArgLoop.left { g with InputFile := some a, OutputFile := some o })
      | _ :: _ :: _ => some (ArgLoop.returned (-1) g)

/-- How `proc_argv` ends: the process has exited, or the function has returned
a status, the file-scope variables being `g`. -/
inductive ProcArgv where
  | exited (status : Int)
  | returned (status : Int) (g : Globals)
deriving DecidableEq

/-- The file-scope variables with the three values that come from `atof`
(`NewSampRate`, `Multiplier`, `GapValue`) put to 0: what is left does not
depend on the values of the options `-s`, `-m` and `-g`. -/
def Globals.dropFloats (g : Globals) : Globals :=
  { g with NewSampRate := 0, Multiplier := 0, GapValue := 0 }

/-- The end of the option loop, the values that come from `atof` put to 0. -/
def ArgLoop.dropFloats : ArgLoop → ArgLoop
  | ArgLoop.exited status => ArgLoop.exited status
  | ArgLoop.returned status g => ArgLoop.returned status g.dropFloats
  | ArgLoop.left g => ArgLoop.left g.dropFloats

/-- The end of `proc_argv`, the values that come from `atof` put to 0: whether
the process has exited, the status, and the other file-scope variables. -/
def ProcArgv.dropFloats : ProcArgv → ProcArgv
  | ProcArgv.exited status => ProcArgv.exited status
  | ProcArgv.returned status g => ProcArgv.returned status g.dropFloats

/-- `proc_argv(argc, argv)` (lines 296-392), `argv` being `argv[0], ...,
argv[argc-1]` and `g` the file-scope variables before the call: the loop from
`argv[1]` on, then the checks of lines 374-391. -/
def proc_argv (atoi : String → Int) (atof : String → ℚ) (argv : List String) (g : Globals) :
    Option ProcArgv :=
  match argLoop atoi atof argv.tail g with
  | none => none
  | some (ArgLoop.exited status) => some (ProcArgv.exited status)
  | some (ArgLoop.returned status g1) => some (ProcArgv.returned status g1)
  | some (ArgLoop.left g1) =>
    some (ProcArgv.returned (proc_argv_check g1.InputFile g1.MaxSample) g1)

/-- The fields of `struct SAChead` (sachead.h) that `main` reads. -/
structure SAChead where
  delta : ℚ
  b : ℚ
  kstnm : List Char
  kcmpnm : List Char
  knetwk : List Char
  khole : List Char
deriving DecidableEq

/-- What `main` takes from outside sac2tnk.c and trace_buf.h: the rounded
arithmetic of the platform, `fmul` the product of two `float` values and `ddiv`
the quotient of two `double` values; `atoi` and `atof` of the C library; the
constants `K_LEN`, `SACSTRUNDEF` and `SACUNDEF` of `sachead.h`; the functions
`sac_file_load` (the header and the `npts` samples of the file, `none` when it
fails), `sac_reftime_fetch` and `sac_scnl_modify` of `sac.h`. -/
structure Extern where
  fmul : ℚ → ℚ → ℚ
  ddiv : ℚ → ℚ → ℚ
  atoi : String → Int
  atof : String → ℚ
  K_LEN : Nat
  SACSTRUNDEF : List Char
  SACUNDEF : ℚ
  sac_file_load : String → Option (SAChead × List ℚ)
  sac_reftime_fetch : SAChead → ℚ
  sac_scnl_modify : SAChead → Option String → Option String → Option String → Option String
    → SAChead

/-- Lines 151-157 of `main`: the period `delta` the loop works with, which is
the `double` quotient `1.0 / NewSampRate` of line 152 when `NewSampRate > 0.0`;
`ddiv` is the division of two `double` values, whose result is rounded. -/
def main_delta (ddiv : ℚ → ℚ → ℚ) (NewSampRate delta : ℚ) : ℚ :=
  if NewSampRate > 0 then ddiv 1 NewSampRate else delta

/-- Lines 151-157 of `main`: the value stored in `outbuf.trh2.samprate`, which
is `NewSampRate` (line 153) or the `double` quotient `1.0 / delta` (line 156). -/
def main_samprate (ddiv : ℚ → ℚ → ℚ) (NewSampRate delta : ℚ) : ℚ :=
  if NewSampRate > 0 then NewSampRate else ddiv 1 delta

/-- Lines 120-159 of `main`: `outbuf.trh2` when the loop is entered, `sh` being
the header after `sac_scnl_modify` and `delta` the period of the file. -/
def main_header (ddiv : ℚ → ℚ → ℚ) (K_LEN : Nat) (SACSTRUNDEF : List Char) (g : Globals)
    (sh : SAChead) (delta : ℚ) : TRACE2_HEADER :=
  ⟨0, 0, 0, 0, main_samprate ddiv g.NewSampRate delta, main_sta K_LEN sh.kstnm,
    main_net K_LEN sh.knetwk, main_chan K_LEN g.SeisanChanFix sh.kcmpnm,
    main_loc K_LEN SACSTRUNDEF sh.khole, ['2', '0'], ['i', '4', NUL], [NUL, NUL], [NUL, NUL]⟩

/-- What a run of `main` leaves: the status returned (or passed to `exit`) and
the packets written to the output. -/
structure MainResult where
  status : Int
  ofp : List TracePacket
deriving DecidableEq

/-- `main` from line 98 on, after `proc_argv` has returned 0 with the file-scope
variables `g`: the file is loaded, the header filled and the samples written.
The output file opens and every `fwrite` succeeds; `none` when `fuel` passes of
the `while` loop do not end it. -/
def main_process (E : Extern) (g : Globals) (fuel : Nat) : Option MainResult :=
  match g.InputFile with
  | none => some ⟨-1, []⟩
  | some f =>
    match E.sac_file_load f with
    | none => some ⟨-1, []⟩
    | some (sh, seis) =>
      if sh.delta < 1 / 1000 then some ⟨-1, []⟩
      else
        let starttime := E.sac_reftime_fetch sh + sh.b
        let delta := sh.delta
        let sh1 := E.sac_scnl_modify sh g.NewSta g.NewChan g.NewNet g.NewLoc
        let trh2 := main_header E.ddiv E.K_LEN E.SACSTRUNDEF g sh1 delta
        (packets E.fmul g.MaxSample g.Multiplier g.GapValue
            (main_delta E.ddiv g.NewSampRate delta) trh2 starttime seis fuel).map
          (fun pk => ⟨0, pk⟩)

/-- `main(argc, argv)` (lines 72-238): when `proc_argv` returns non-zero the
usage text is printed and -1 returned before anything is loaded or written. -/
def main (E : Extern) (argv : List String) (fuel : Nat) : Option MainResult :=
  match proc_argv E.atoi E.atof argv (Globals.init E.SACUNDEF) with
  | none => none
  | some (ProcArgv.exited status) => some ⟨status, []⟩
  | some (ProcArgv.returned status g) =>
    if status ≠ 0 then some ⟨-1, []⟩ else main_process E g fuel

/-- An environment for examples: arithmetic without rounding, `atoi` and `atof`
on the few decimal strings used below, the SAC constants, and a file `in.sac`
of six samples at 100 Hz with one undefined value, station `STA`, channel
`EHZ`, network `TW`. -/
def exampleExtern : Extern where
  fmul := exampleMul
  ddiv := exampleDiv
  atoi := fun s => if s = "1" then 1 else if s = "100" then 100 else if s = "1008" then 1008
    else if s = "1009" then 1009 else if s = "-3" then -3 else 0
  atof := fun s => if s = "50" then 50 else if s = "-5" then -5 else if s = "2" then 2 else 0
  K_LEN := 8
  SACSTRUNDEF := ['-', '1', '2', '3', '4', '5', ' ', ' ']
  SACUNDEF := -12345
  sac_file_load := fun f =>
    if f = "in.sac" then
      some (⟨1 / 100, 0, ['S', 'T', 'A', ' ', ' ', ' ', ' ', ' '],
        ['E', 'H', 'Z', ' ', ' ', ' ', ' ', ' '], ['T', 'W', ' ', ' ', ' ', ' ', ' ', ' '],
        ['-', '1', '2', '3', '4', '5', ' ', ' ']⟩, [1, 2, 3, -12345, 4, 5])
    else none
  sac_reftime_fetch := fun _ => 1000
  sac_scnl_modify := fun sh _ _ _ _ => sh

/-! ## Counting the passes and the steps of the loop -/

/-- The number of times the body of the `for` loop (lines 186-203) is entered
from a state with the samples `seis_ptr` to go and `nsamp` samples in the
packet: once for each sample taken or passed over, and once more when the loop
is left at the `break` of line 202. -/
def forEntries (MaxSample : Int) (GapValue : ℚ) : List ℚ → Nat → Nat
  | [], _ => 0
  | v :: rest, nsamp =>
    if (nsamp : Int) < MaxSample then
      if v ≠ GapValue then forEntries MaxSample GapValue rest (nsamp + 1) + 1
      else if nsamp ≠ 0 then 1
      else forEntries MaxSample GapValue rest nsamp + 1
    else 0

/-- What a run of the `while` loop of lines 179-218 costs: the passes through
its body, the executions of the step `i++, seis_ptr++, npts--` of the `for`
statement of line 185, and the entries into the body of that statement. -/
structure LoopCount where
  passes : Nat
  steps : Nat
  entries : Nat
deriving DecidableEq

/-- The counts of the run of the `while` loop that `whileLoop` describes.  The
steps of one pass are the value of `i` when the `for` loop is left, since `i`
starts at 0 and is incremented by the step of the `for` statement only. -/
def whileCount (fmul : ℚ → ℚ → ℚ) (MaxSample : Int) (Multiplier GapValue delta : ℚ) :
    Nat → MainState → Option LoopCount
  | 0, s => if s.seis_ptr = [] then some ⟨0, 0, 0⟩ else none
  | fuel + 1, s =>
    if s.seis_ptr = [] then some ⟨0, 0, 0⟩
    else
      (whileCount fmul MaxSample Multiplier GapValue delta fuel
          (whileBody fmul MaxSample Multiplier GapValue delta s)).map
        (fun c => ⟨c.passes + 1,
          c.steps + (forLoop fmul MaxSample Multiplier GapValue s.starttime delta s.seis_ptr 0
            s.seis_min s.seis_max { s.trh2 with pinno := 0, nsamp := 0 } []).i,
          c.entries + forEntries MaxSample GapValue s.seis_ptr 0⟩)

/-! ## The split of a sample array into packets, as a relation -/

/-- The header of an emitted packet: the identification fields of `h`, with
`pinno` 0 and the given sample count and times. -/
def stamp (h : TRACE2_HEADER) (nsamp : Nat) (starttime endtime : ℚ) : TRACE2_HEADER :=
  { h with pinno := 0, nsamp := nsamp, starttime := starttime, endtime := endtime }

/-- `Chunked ... t seis pk`: the packets `pk` are the greedy split of the samples
`seis`, the first of which is sampled at time `t`.  A gap value between packets
is passed over; a packet carries a non-empty run of non-gap samples, no longer
than `MaxSample`, and is shorter than `MaxSample` only before a gap value or at
the end of the samples. -/
inductive Chunked (fmul : ℚ → ℚ → ℚ) (MaxSample : Int) (Multiplier GapValue delta : ℚ)
    (tmpl : TRACE2_HEADER) :
    ℚ → List ℚ → List TracePacket → Prop
  | done (t : ℚ) : Chunked fmul MaxSample Multiplier GapValue delta tmpl t [] []
  | gap (t g : ℚ) (rest : List ℚ) (pk : List TracePacket) :
      g = GapValue →
      Chunked fmul MaxSample Multiplier GapValue delta tmpl (t + delta) rest pk →
      Chunked fmul MaxSample Multiplier GapValue delta tmpl t (g :: rest) pk
  | run (t : ℚ) (seis run rest : List ℚ) (pk : List TracePacket) :
      seis = run ++ rest →
      run ≠ [] →
      (∀ v ∈ run, v ≠ GapValue) →
      (run.length : Int) ≤ MaxSample →
      ((run.length : Int) < MaxSample → rest = [] ∨ rest.head? = some GapValue) →
      Chunked fmul MaxSample Multiplier GapValue delta tmpl (t + delta * run.length) rest pk →
      Chunked fmul MaxSample Multiplier GapValue delta tmpl t seis
        (⟨stamp tmpl run.length t (t + delta * (run.length - 1)),
          run.map (fun v => int32_cast (fmul Multiplier v))⟩ :: pk)

/-! ## The loop computes the split -/

section Loop

variable {fmul : ℚ → ℚ → ℚ} {MaxSample : Int} {Multiplier GapValue delta : ℚ}

theorem forLoop_full (starttime v : ℚ) (rest : List ℚ) (i : Nat) (mn mx : ℚ)
    (h : TRACE2_HEADER) (ld : List Int) (hlt : ¬ (h.nsamp : Int) < MaxSample) :
    forLoop fmul MaxSample Multiplier GapValue starttime delta (v :: rest) i mn mx h ld
      = ⟨v :: rest, i, mn, mx, h, ld⟩ := by
  rw [forLoop, if_neg hlt]

theorem forLoop_break (starttime : ℚ) (rest : List ℚ) (i : Nat) (mn mx : ℚ)
    (h : TRACE2_HEADER) (ld : List Int) (hlt : (h.nsamp : Int) < MaxSample) (hn : h.nsamp ≠ 0) :
    forLoop fmul MaxSample Multiplier GapValue starttime delta (GapValue :: rest) i mn mx h ld
      = ⟨GapValue :: rest, i, mn, mx, h, ld⟩ := by
  rw [forLoop, if_pos hlt, if_neg (by simp), if_pos hn]

theorem forLoop_skip (starttime : ℚ) (rest : List ℚ) (i : Nat) (mn mx : ℚ)
    (h : TRACE2_HEADER) (ld : List Int) (hlt : (h.nsamp : Int) < MaxSample) (hn : h.nsamp = 0) :
    forLoop fmul MaxSample Multiplier GapValue starttime delta (GapValue :: rest) i mn mx h ld
      = forLoop fmul MaxSample Multiplier GapValue starttime delta rest (i + 1) mn mx h ld := by
  rw [forLoop, if_pos hlt, if_neg (by simp), if_neg (by simp [hn])]

theorem forLoop_take (starttime v : ℚ) (rest : List ℚ) (i : Nat) (mn mx : ℚ)
    (h : TRACE2_HEADER) (ld : List Int) (hlt : (h.nsamp : Int) < MaxSample) (hv : v ≠ GapValue) :
    forLoop fmul MaxSample Multiplier GapValue starttime delta (v :: rest) i mn mx h ld
      = forLoop fmul MaxSample Multiplier GapValue starttime delta rest (i + 1)
          (if v < mn then v else mn) (if v < mn then mx else if v > mx then v else mx)
          { h with nsamp := h.nsamp + 1,
                   starttime := if h.nsamp = 0 then starttime + delta * i else h.starttime }
          (ld ++ [int32_cast (fmul Multiplier v)]) := by
  rw [forLoop, if_pos hlt, if_pos hv]
  by_cases hn : h.nsamp = 0 <;> simp [hn]

/-- What the `for` loop does from any state: it passes over gap values (only
while the packet is empty), then takes a run of non-gap samples. -/
theorem forLoop_spec (starttime : ℚ) (seis : List ℚ) :
    ∀ (i : Nat) (mn mx : ℚ) (h : TRACE2_HEADER) (ld : List Int),
    ∃ gaps run rest, seis = gaps ++ (run ++ rest) ∧ (∀ g ∈ gaps, g = GapValue) ∧
      (h.nsamp ≠ 0 → gaps = []) ∧ (∀ v ∈ run, v ≠ GapValue) ∧
      (forLoop fmul MaxSample Multiplier GapValue starttime delta seis i mn mx h ld).seis_ptr = rest ∧
      (forLoop fmul MaxSample Multiplier GapValue starttime delta seis i mn mx h ld).i
        = i + gaps.length + run.length ∧
      (forLoop fmul MaxSample Multiplier GapValue starttime delta seis i mn mx h ld).ldata
        = ld ++ run.map (fun v => int32_cast (fmul Multiplier v)) ∧
      (forLoop fmul MaxSample Multiplier GapValue starttime delta seis i mn mx h ld).trh2
        = { h with nsamp := h.nsamp + run.length,
                   starttime := if h.nsamp = 0 ∧ run ≠ [] then starttime + delta * (i + gaps.length)
                     else h.starttime } ∧
      ((h.nsamp : Int) ≤ MaxSample → ((h.nsamp + run.length : Nat) : Int) ≤ MaxSample) ∧
      (((h.nsamp + run.length : Nat) : Int) < MaxSample →
        rest = [] ∨ (rest.head? = some GapValue ∧ h.nsamp + run.length ≠ 0)) := by
  induction seis with
  | nil =>
    intro i mn mx h ld
    refine ⟨[], [], [], rfl, by simp, by simp, by simp, ?_⟩
    simp [forLoop]
  | cons v rest ih =>
    intro i mn mx h ld
    by_cases hlt : (h.nsamp : Int) < MaxSample
    · by_cases hv : v = GapValue
      · subst hv
        by_cases hn : h.nsamp = 0
        · obtain ⟨gaps, run, rest1, hs, hg, -, hr, h1, h2, h3, h4, h5, h6⟩ := ih (i + 1) mn mx h ld
          refine ⟨v :: gaps, run, rest1, by simp [hs], ?_, by simp [hn], hr, ?_⟩
          · intro g hg1
            rcases List.mem_cons.1 hg1 with rfl | hg2
            · rfl
            · exact hg g hg2
          · rw [forLoop_skip starttime rest i mn mx h ld hlt hn]
            refine ⟨h1, ?_, h3, ?_, h5, h6⟩
            · rw [h2]; simp only [List.length_cons]; omega
            · rw [h4]
              simp only [List.length_cons]
              push_cast
              have : starttime + delta * ((i : ℚ) + 1 + gaps.length)
                  = starttime + delta * (i + (gaps.length + 1)) := by ring
              rw [this]
        · refine ⟨[], [], v :: rest, rfl, by simp, by simp, by simp, ?_⟩
          rw [forLoop_break starttime rest i mn mx h ld hlt hn]
          simp [hn]
      · obtain ⟨gaps, run, rest1, hs, -, hg0, hr, h1, h2, h3, h4, h5, h6⟩ :=
          ih (i + 1) (if v < mn then v else mn)
            (if v < mn then mx else if v > mx then v else mx)
            { h with nsamp := h.nsamp + 1,
                     starttime := if h.nsamp = 0 then starttime + delta * i else h.starttime }
            (ld ++ [int32_cast (fmul Multiplier v)])
        have hg : gaps = [] := hg0 (by simp)
        subst hg
        refine ⟨[], v :: run, rest1, by simp [hs], by simp, by simp, ?_, ?_⟩
        · intro w hw
          rcases List.mem_cons.1 hw with rfl | hw2
          · exact hv
          · exact hr w hw2
        · rw [forLoop_take starttime v rest i mn mx h ld hlt hv]
          refine ⟨h1, ?_, ?_, ?_, ?_, ?_⟩
          · rw [h2]; simp only [List.length_nil, List.length_cons]; omega
          · rw [h3]; simp
          · rw [h4]
            by_cases hn : h.nsamp = 0
            · simp [hn]; omega
            · simp [hn]; omega
          · intro _
            have := h5 (by simp only []; push_cast; omega)
            simp only [List.length_cons] at this ⊢
            push_cast at this ⊢
            omega
          · intro hlt2
            have := h6 (by
              simp only [List.length_cons] at hlt2 ⊢
              push_cast at hlt2 ⊢
              omega)
            rcases this with h7 | ⟨h7, -⟩
            · exact Or.inl h7
            · exact Or.inr ⟨h7, by simp⟩
    · refine ⟨[], [], v :: rest, rfl, by simp, by simp, by simp, ?_⟩
      rw [forLoop_full starttime v rest i mn mx h ld hlt]
      simp only [List.length_nil, add_zero, List.map_nil, List.append_nil,
        ne_eq, not_true_eq_false, and_false, if_false, true_and]
      exact ⟨fun h => h, fun h => absurd h hlt⟩

theorem whileLoop_nil (fuel : Nat) (s : MainState) (h : s.seis_ptr = []) :
    whileLoop fmul MaxSample Multiplier GapValue delta fuel s = some s := by
  cases fuel <;> simp [whileLoop, h]

theorem whileLoop_cons (fuel : Nat) (s : MainState) (h : s.seis_ptr ≠ []) :
    whileLoop fmul MaxSample Multiplier GapValue delta (fuel + 1) s
      = whileLoop fmul MaxSample Multiplier GapValue delta fuel
          (whileBody fmul MaxSample Multiplier GapValue delta s) := by
  rw [whileLoop, if_neg h]

theorem chunked_gaps (tmpl : TRACE2_HEADER) (gaps : List ℚ) :
    ∀ (t : ℚ) (rest : List ℚ) (pk : List TracePacket), (∀ g ∈ gaps, g = GapValue) →
      Chunked fmul MaxSample Multiplier GapValue delta tmpl (t + delta * gaps.length) rest pk →
      Chunked fmul MaxSample Multiplier GapValue delta tmpl t (gaps ++ rest) pk := by
  induction gaps with
  | nil =>
    intro t rest pk _ hc
    simpa using hc
  | cons g gs ih =>
    intro t rest pk hg hc
    refine Chunked.gap t g (gs ++ rest) pk (hg g (by simp)) ?_
    refine ih (t + delta) rest pk (fun x hx => hg x (by simp [hx])) ?_
    have : t + delta + delta * (gs.length : ℚ) = t + delta * ((g :: gs).length : ℚ) := by
      simp only [List.length_cons]; push_cast; ring
    rw [this]
    exact hc

/-- One pass through the body of the `while` loop, described by the gap values
passed over and the run taken. -/
theorem whileBody_spec (s : MainState) (hM : 1 ≤ MaxSample) :
    ∃ gaps run rest, s.seis_ptr = gaps ++ (run ++ rest) ∧ (∀ g ∈ gaps, g = GapValue) ∧
      (∀ v ∈ run, v ≠ GapValue) ∧ (run.length : Int) ≤ MaxSample ∧
      ((run.length : Int) < MaxSample → rest = [] ∨ (rest.head? = some GapValue ∧ run ≠ [])) ∧
      (whileBody fmul MaxSample Multiplier GapValue delta s).seis_ptr = rest ∧
      (whileBody fmul MaxSample Multiplier GapValue delta s).starttime
        = s.starttime + delta * gaps.length + delta * run.length ∧
      (∀ n a b, stamp (whileBody fmul MaxSample Multiplier GapValue delta s).trh2 n a b
        = stamp s.trh2 n a b) ∧
      (whileBody fmul MaxSample Multiplier GapValue delta s).ofp
        = if run = [] then s.ofp else s.ofp ++
          [⟨stamp s.trh2 run.length (s.starttime + delta * gaps.length)
              (s.starttime + delta * gaps.length + delta * (run.length - 1)),
            run.map (fun v => int32_cast (fmul Multiplier v))⟩] := by
  obtain ⟨gaps, run, rest, hs, hg, -, hr, h1, h2, h3, h4, h5, h6⟩ :=
    @forLoop_spec fmul MaxSample Multiplier GapValue delta s.starttime s.seis_ptr 0 s.seis_min s.seis_max
      { s.trh2 with pinno := 0, nsamp := 0 } []
  simp only [Nat.zero_add, List.nil_append, true_and, Nat.cast_zero, zero_add] at h2 h3 h4 h5 h6
  refine ⟨gaps, run, rest, hs, hg, hr, h5 (by omega), ?_, ?_, ?_, ?_, ?_⟩
  · intro hlt
    rcases h6 hlt with h7 | ⟨h7, h8⟩
    · exact Or.inl h7
    · refine Or.inr ⟨h7, ?_⟩
      intro hrun
      exact h8 (by simp [hrun])
  · simp only [whileBody, h1]
  · simp only [whileBody, h2]
    push_cast
    ring
  · intro n a b
    simp only [whileBody, h4, stamp]
  · simp only [whileBody, h3, h4]
    by_cases hrun : run = []
    · simp [hrun]
    · have hlen : run.length ≠ 0 := by
        intro h0; exact hrun (List.length_eq_zero.1 h0)
      simp only [ne_eq, hlen, not_false_eq_true, if_true, hrun, if_false, h2, and_self, stamp]
      congr 3
      · congr 1
        push_cast
        ring
      · rw [← List.length_map run (fun v => int32_cast (fmul Multiplier v)), List.take_length]

/-- The loop is left within `npts` passes, and the packets it has written by
then are the greedy split of the samples. -/
theorem whileLoop_chunked (tmpl : TRACE2_HEADER) (hM : 1 ≤ MaxSample) :
    ∀ (fuel : Nat) (s : MainState), s.seis_ptr.length ≤ fuel →
      (∀ n a b, stamp s.trh2 n a b = stamp tmpl n a b) →
      ∃ s1 pk, whileLoop fmul MaxSample Multiplier GapValue delta fuel s = some s1 ∧
        s1.ofp = s.ofp ++ pk ∧ s1.seis_ptr = [] ∧
        Chunked fmul MaxSample Multiplier GapValue delta tmpl s.starttime s.seis_ptr pk := by
  intro fuel
  induction fuel with
  | zero =>
    intro s hlen _
    have hnil : s.seis_ptr = [] := List.length_eq_zero.1 (Nat.le_zero.1 hlen)
    exact ⟨s, [], whileLoop_nil 0 s hnil, by simp, hnil, by rw [hnil]; exact Chunked.done _⟩
  | succ fuel ih =>
    intro s hlen htm
    by_cases hnil : s.seis_ptr = []
    · exact ⟨s, [], whileLoop_nil _ s hnil, by simp, hnil, by rw [hnil]; exact Chunked.done _⟩
    · obtain ⟨gaps, run, rest, hs, hg, hr, hle, hstop, b1, b2, b3, b4⟩ :=
        @whileBody_spec fmul MaxSample Multiplier GapValue delta s hM
      rw [whileLoop_cons fuel s hnil]
      have hlen1 : (whileBody fmul MaxSample Multiplier GapValue delta s).seis_ptr.length ≤ fuel := by
        rw [b1]
        rw [hs] at hlen hnil
        simp only [List.length_append] at hlen
        by_cases hrun : run = []
        · have hrest : rest = [] := by
            rcases hstop (by simp [hrun]; omega) with h7 | ⟨-, h8⟩
            · exact h7
            · exact absurd hrun h8
          simp [hrest]
        · have : run.length ≠ 0 := fun h0 => hrun (List.length_eq_zero.1 h0)
          omega
      obtain ⟨s1, pk, e1, e2, e3, e4⟩ := ih _ hlen1 (fun n a b => by rw [b3, htm])
      rw [b1, b2] at e4
      by_cases hrun : run = []
      · refine ⟨s1, pk, e1, ?_, e3, ?_⟩
        · rw [e2, b4, if_pos hrun]
        · rw [hs]
          refine chunked_gaps tmpl gaps _ _ _ hg ?_
          subst hrun
          simpa using e4
      · refine ⟨s1, ⟨stamp s.trh2 run.length (s.starttime + delta * gaps.length)
              (s.starttime + delta * gaps.length + delta * (run.length - 1)),
            run.map (fun v => int32_cast (fmul Multiplier v))⟩ :: pk, e1, ?_, e3, ?_⟩
        · rw [e2, b4, if_neg hrun, List.append_assoc]
          rfl
        · rw [hs]
          refine chunked_gaps tmpl gaps _ _ _ hg ?_
          rw [htm]
          refine Chunked.run _ _ run rest pk rfl hrun hr hle ?_ e4
          intro hlt
          rcases hstop hlt with h7 | ⟨h7, -⟩
          · exact Or.inl h7
          · exact Or.inr h7

/-- The packets written for `seis`: `main` leaves the loop within `npts`
passes, having written the greedy split of the samples. -/
theorem packets_chunked (tmpl : TRACE2_HEADER) (starttime : ℚ) (seis : List ℚ) (fuel : Nat)
    (hM : 1 ≤ MaxSample) (hfuel : seis.length ≤ fuel) :
    ∃ pk, packets fmul MaxSample Multiplier GapValue delta tmpl starttime seis fuel = some pk ∧
      Chunked fmul MaxSample Multiplier GapValue delta tmpl starttime seis pk := by
  obtain ⟨s1, pk, e1, e2, -, e4⟩ :=
    @whileLoop_chunked fmul MaxSample Multiplier GapValue delta
      tmpl hM fuel (initState tmpl starttime seis) hfuel (fun _ _ _ => rfl)
  refine ⟨pk, ?_, e4⟩
  simp only [packets, e1, Option.map_some']
  simpa [initState] using e2

end Loop

/-! ## Properties of the split -/

section Split

variable {fmul : ℚ → ℚ → ℚ} {MaxSample : Int} {Multiplier GapValue delta : ℚ} {tmpl : TRACE2_HEADER}

/-- Each packet of a split: a non-zero count within `MaxSample`, as many data
words as the count, and an end time `nsamp - 1` periods after the start. -/
theorem chunked_each {t : ℚ} {seis : List ℚ} {pk : List TracePacket}
    (hc : Chunked fmul MaxSample Multiplier GapValue delta tmpl t seis pk) :
    ∀ p ∈ pk, p.trh2.nsamp ≠ 0 ∧ (p.trh2.nsamp : Int) ≤ MaxSample ∧
      p.data.length = p.trh2.nsamp ∧
      p.trh2.endtime = p.trh2.starttime + ((p.trh2.nsamp : ℚ) - 1) * delta := by
  induction hc with
  | done t => intro p hp; simp at hp
  | gap t g rest pk _ _ ih => exact ih
  | run t seis run rest pk _ hne _ hle _ _ ih =>
    intro p hp
    rcases List.mem_cons.1 hp with rfl | hp2
    · refine ⟨?_, hle, by simp [stamp], ?_⟩
      · intro h0
        exact hne (List.length_eq_zero.1 h0)
      · simp only [stamp]; ring
    · exact ih p hp2

/-- The counts of a split add up to the number of non-gap samples. -/
theorem chunked_total {t : ℚ} {seis : List ℚ} {pk : List TracePacket}
    (hc : Chunked fmul MaxSample Multiplier GapValue delta tmpl t seis pk) :
    (pk.map (fun p => p.trh2.nsamp)).sum = seis.countP (fun v => decide (v ≠ GapValue)) := by
  induction hc with
  | done t => simp
  | gap t g rest pk hg _ ih => simp [ih, hg]
  | run t seis run rest pk hs _ hr _ _ _ ih =>
    subst hs
    have : run.countP (fun v => decide (v ≠ GapValue)) = run.length := by
      rw [List.countP_eq_length]
      intro v hv
      simpa using hr v hv
    simp only [List.map_cons, List.sum_cons, ih, List.countP_append, this]
    rfl

/-- The data of a split, concatenated, are the encoded non-gap samples in
source order. -/
theorem chunked_data {t : ℚ} {seis : List ℚ} {pk : List TracePacket}
    (hc : Chunked fmul MaxSample Multiplier GapValue delta tmpl t seis pk) :
    (pk.map (fun p => p.data)).flatten
      = (seis.filter (fun v => decide (v ≠ GapValue))).map
          (fun v => int32_cast (fmul Multiplier v)) := by
  induction hc with
  | done t => simp
  | gap t g rest pk hg _ ih => simp [ih, hg]
  | run t seis run rest pk hs _ hr _ _ _ ih =>
    subst hs
    have : run.filter (fun v => decide (v ≠ GapValue)) = run := by
      rw [List.filter_eq_self]
      intro v hv
      simpa using hr v hv
    simp only [List.map_cons, List.flatten_cons, ih, List.filter_append, this, List.map_append]

/-- Each packet of a split carries the samples of a window of the source that
holds no gap value, and starts at the time of the first sample of the window. -/
theorem chunked_window {t : ℚ} {seis : List ℚ} {pk : List TracePacket}
    (hc : Chunked fmul MaxSample Multiplier GapValue delta tmpl t seis pk) :
    ∀ p ∈ pk, ∃ s : Nat, s + p.trh2.nsamp ≤ seis.length ∧
      (∀ v ∈ (seis.drop s).take p.trh2.nsamp, v ≠ GapValue) ∧
      p.data = ((seis.drop s).take p.trh2.nsamp).map (fun v => int32_cast (fmul Multiplier v)) ∧
      p.trh2.starttime = t + (s : ℚ) * delta := by
  induction hc with
  | done t => intro p hp; simp at hp
  | gap t g rest pk _ _ ih =>
    intro p hp
    obtain ⟨s, h1, h2, h3, h4⟩ := ih p hp
    refine ⟨s + 1, by simp only [List.length_cons]; omega, by simpa using h2,
      by simpa using h3, ?_⟩
    rw [h4]; push_cast; ring
  | run t seis run rest pk hs _ hr _ _ _ ih =>
    subst hs
    intro p hp
    rcases List.mem_cons.1 hp with rfl | hp2
    · refine ⟨0, by simp [stamp], ?_, ?_, by simp [stamp]⟩
      · simpa [stamp] using hr
      · simp [stamp]
    · obtain ⟨s, h1, h2, h3, h4⟩ := ih p hp2
      have hd : (run ++ rest).drop (run.length + s) = rest.drop s := by
        rw [List.drop_append]
      refine ⟨run.length + s, by simp only [List.length_append]; omega, ?_, ?_, ?_⟩
      · rw [hd]; exact h2
      · rw [hd]; exact h3
      · rw [h4]; push_cast; ring

/-- In a split with a non-negative period no packet starts before the time of
the first source sample, and each packet starts at least one period after the
packet before it has ended. -/
theorem chunked_order {t : ℚ} {seis : List ℚ} {pk : List TracePacket}
    (hc : Chunked fmul MaxSample Multiplier GapValue delta tmpl t seis pk) (hd : 0 ≤ delta) :
    (∀ p ∈ pk, t ≤ p.trh2.starttime) ∧
      List.Chain' (fun p q : TracePacket => p.trh2.endtime + delta ≤ q.trh2.starttime) pk := by
  induction hc with
  | done t => simp
  | gap t g rest pk _ _ ih =>
    refine ⟨fun p hp => ?_, ih.2⟩
    have := ih.1 p hp
    linarith
  | run t seis run rest pk _ _ _ _ _ _ ih =>
    have hlen : (0 : ℚ) ≤ (run.length : ℚ) := Nat.cast_nonneg _
    refine ⟨fun p hp => ?_, ?_⟩
    · rcases List.mem_cons.1 hp with rfl | hp2
      · simp [stamp]
      · have := ih.1 p hp2
        have := mul_nonneg hd hlen
        linarith
    · rw [List.chain'_cons']
      refine ⟨fun q hq => ?_, ih.2⟩
      have := ih.1 q (List.mem_of_mem_head? hq)
      simp only [stamp]
      linarith

/-- The first packet of a split starts as many periods after the first source
sample as there are leading gap values. -/
theorem chunked_head {t : ℚ} {seis : List ℚ} {pk : List TracePacket}
    (hc : Chunked fmul MaxSample Multiplier GapValue delta tmpl t seis pk) :
    ∀ p, pk.head? = some p →
      p.trh2.starttime
        = t + ((seis.takeWhile (fun v => decide (v = GapValue))).length : ℚ) * delta := by
  induction hc with
  | done t => intro p hp; simp at hp
  | gap t g rest pk hg _ ih =>
    intro p hp
    rw [ih p hp, hg]
    simp only [List.takeWhile_cons, decide_True, if_true, List.length_cons]
    push_cast
    ring
  | run t seis run rest pk hs hne hr _ _ _ _ =>
    subst hs
    intro p hp
    simp only [List.head?_cons, Option.some.injEq] at hp
    subst hp
    cases run with
    | nil => exact absurd rfl hne
    | cons v vs =>
      have hv : v ≠ GapValue := hr v (by simp)
      simp [stamp, List.takeWhile_cons, hv]

/-- No packet is split off an empty sample array. -/
theorem chunked_nil {t : ℚ} {pk : List TracePacket}
    (hc : Chunked fmul MaxSample Multiplier GapValue delta tmpl t [] pk) : pk = [] := by
  cases hc with
  | done => rfl
  | run _ _ run rest pk hs hne _ _ _ _ =>
    exfalso
    apply hne
    have := congrArg List.length hs
    simp only [List.length_nil, List.length_append] at this
    exact List.length_eq_zero.1 (by omega)

/-- A maximal gap-free run at the head of a list is determined by the list. -/
theorem run_unique {M : Int} {G : ℚ} {run rest run1 rest1 : List ℚ}
    (hs : run ++ rest = run1 ++ rest1)
    (hr : ∀ v ∈ run, v ≠ G) (hr1 : ∀ v ∈ run1, v ≠ G)
    (hle : (run.length : Int) ≤ M) (hle1 : (run1.length : Int) ≤ M)
    (hstop : (run.length : Int) < M → rest = [] ∨ rest.head? = some G)
    (hstop1 : (run1.length : Int) < M → rest1 = [] ∨ rest1.head? = some G) :
    run = run1 ∧ rest = rest1 := by
  rcases List.append_eq_append_iff.1 hs with ⟨a, h1, h2⟩ | ⟨c, h1, h2⟩
  · cases a with
    | nil => simp at h1 h2; exact ⟨h1.symm, h2⟩
    | cons x xs =>
      exfalso
      have hx : x ≠ G := hr1 x (by rw [h1]; simp)
      have hlen : (run.length : Int) < M := by
        have := congrArg List.length h1
        simp only [List.length_append, List.length_cons] at this
        omega
      rcases hstop hlen with h3 | h3
      · rw [h3] at h2; simp at h2
      · rw [h2] at h3; simp at h3; exact hx h3
  · cases c with
    | nil => simp at h1 h2; exact ⟨h1, h2.symm⟩
    | cons x xs =>
      exfalso
      have hx : x ≠ G := hr x (by rw [h1]; simp)
      have hlen : (run1.length : Int) < M := by
        have := congrArg List.length h1
        simp only [List.length_append, List.length_cons] at this
        omega
      rcases hstop1 hlen with h3 | h3
      · rw [h3] at h2; simp at h2
      · rw [h2] at h3; simp at h3; exact hx h3

/-- The split of a sample array is unique. -/
theorem chunked_unique {t : ℚ} {seis : List ℚ} {pk1 : List TracePacket}
    (hc1 : Chunked fmul MaxSample Multiplier GapValue delta tmpl t seis pk1) :
    ∀ pk2, Chunked fmul MaxSample Multiplier GapValue delta tmpl t seis pk2 → pk1 = pk2 := by
  induction hc1 with
  | done t => intro pk2 hc2; exact (chunked_nil hc2).symm
  | gap t g rest pk hg _ ih =>
    intro pk2 hc2
    cases hc2 with
    | gap _ _ _ _ _ hc3 => exact ih _ hc3
    | run _ _ run1 rest1 pk3 hs1 hne1 hr1 _ _ _ =>
      exfalso
      cases run1 with
      | nil => exact hne1 rfl
      | cons x xs =>
        simp only [List.cons_append, List.cons.injEq] at hs1
        exact hr1 x (by simp) (hs1.1 ▸ hg)
  | run t seis run rest pk hs hne hr hle hstop _ ih =>
    intro pk2 hc2
    cases hc2 with
    | done =>
      exfalso
      apply hne
      have := congrArg List.length hs
      simp only [List.length_nil, List.length_append] at this
      exact List.length_eq_zero.1 (by omega)
    | gap _ g rest1 _ hg _ =>
      exfalso
      cases run with
      | nil => exact hne rfl
      | cons x xs =>
        simp only [List.cons_append, List.cons.injEq] at hs
        exact hr x (by simp) (hs.1 ▸ hg)
    | run _ _ run1 rest1 pk3 hs1 hne1 hr1 hle1 hstop1 hc3 =>
      obtain ⟨e1, e2⟩ := run_unique (hs.symm.trans hs1) hr hr1 hle hle1 hstop hstop1
      subst e1
      subst e2
      rw [ih _ hc3]

/-- The split of a non-empty sample array without gap values, `MaxSample`
being `m >= 1`: `q` full packets and a last packet of `l` samples, where the
array has `q * m + l` samples and `1 <= l <= m`; the first packet starts at the
time of the first sample and the last ends at the time of the last sample. -/
theorem chunked_gapfree {m : Nat} {t : ℚ} {seis : List ℚ} {pk : List TracePacket}
    (hc : Chunked fmul (m : Int) Multiplier GapValue delta tmpl t seis pk) :
    (∀ v ∈ seis, v ≠ GapValue) → seis ≠ [] →
    ∃ q l, 1 ≤ l ∧ l ≤ m ∧ seis.length = q * m + l ∧
      pk.map (fun p => p.trh2.nsamp) = List.replicate q m ++ [l] ∧
      pk.head?.map (fun p => p.trh2.starttime) = some t ∧
      pk.getLast?.map (fun p => p.trh2.endtime)
        = some (t + ((seis.length : ℚ) - 1) * delta) := by
  induction hc with
  | done t => intro _ h; exact absurd rfl h
  | gap t g rest pk hg _ _ => intro h _; exact absurd hg (h g (by simp))
  | run t seis run rest pk hs hne hr hle hstop hc1 ih =>
    intro hfree _
    subst hs
    have hk : run.length ≠ 0 := fun h0 => hne (List.length_eq_zero.1 h0)
    by_cases hrest : rest = []
    · subst hrest
      have hpk := chunked_nil hc1
      subst hpk
      refine ⟨0, run.length, by omega, by exact_mod_cast hle, by simp, by simp [stamp],
        by simp [stamp], ?_⟩
      simp only [List.getLast?_singleton, Option.map_some', stamp, List.append_nil]
      congr 1
      ring
    · have hfree1 : ∀ v ∈ rest, v ≠ GapValue := fun v hv => hfree v (by simp [hv])
      have hfull : run.length = m := by
        by_contra hne2
        have hlt : (run.length : Int) < (m : Int) := by
          have : run.length ≤ m := by exact_mod_cast hle
          exact_mod_cast lt_of_le_of_ne this hne2
        rcases hstop hlt with h1 | h1
        · exact hrest h1
        · cases rest with
          | nil => exact hrest rfl
          | cons x xs =>
            simp only [List.head?_cons, Option.some.injEq] at h1
            exact hfree1 x (by simp) h1
      obtain ⟨q, l, h1, h2, h3, h4, h5, h6⟩ := ih hfree1 hrest
      refine ⟨q + 1, l, h1, h2, ?_, ?_, by simp [stamp], ?_⟩
      · simp only [List.length_append, h3, hfull]; ring
      · simp only [List.map_cons, h4, stamp, hfull, List.replicate_succ, List.cons_append]
      · have hpk : pk ≠ [] := by
          intro h0
          rw [h0] at h4
          simp at h4
        obtain ⟨p0, ps, hps⟩ := List.exists_cons_of_ne_nil hpk
        rw [hps, List.getLast?_cons_cons, ← hps, h6]
        congr 1
        simp only [List.length_append]
        push_cast
        ring

/-- The number of packets `(n + m - 1) / m` and the size of the last one, from
the decomposition `n = q * m + l` with `1 <= l <= m`. -/
theorem ceil_div_of_decomp {n m q l : Nat} (h1 : 1 ≤ l) (h2 : l ≤ m) (h3 : n = q * m + l) :
    (n + m - 1) / m = q + 1 ∧ n - m * ((n + m - 1) / m - 1) = l := by
  have hm : 0 < m := by omega
  have e : (n + m - 1) / m = q + 1 := by
    have e1 : n + m - 1 = (l - 1) + (q + 1) * m := by
      rw [h3, Nat.add_mul]; omega
    rw [e1, Nat.add_mul_div_right _ _ hm, Nat.div_eq_of_lt (by omega)]
    omega
  refine ⟨e, ?_⟩
  rw [e, h3, Nat.add_sub_cancel, Nat.mul_comm m q]
  omega

/-- Whatever `MaxSample` is, the loop never writes a packet without samples. -/
theorem whileLoop_nonempty (fmul : ℚ → ℚ → ℚ) (MaxSample : Int) (Multiplier GapValue delta : ℚ) :
    ∀ (fuel : Nat) (s s1 : MainState),
      whileLoop fmul MaxSample Multiplier GapValue delta fuel s = some s1 →
      (∀ p ∈ s.ofp, p.trh2.nsamp ≠ 0) → ∀ p ∈ s1.ofp, p.trh2.nsamp ≠ 0 := by
  intro fuel
  induction fuel with
  | zero =>
    intro s s1 h hs
    by_cases hnil : s.seis_ptr = []
    · rw [whileLoop_nil 0 s hnil] at h
      cases h
      exact hs
    · simp [whileLoop, hnil] at h
  | succ fuel ih =>
    intro s s1 h hs
    by_cases hnil : s.seis_ptr = []
    · rw [whileLoop_nil _ s hnil] at h
      cases h
      exact hs
    · rw [whileLoop_cons fuel s hnil] at h
      refine ih _ s1 h ?_
      intro p hp
      simp only [whileBody] at hp
      split at hp
      · rcases List.mem_append.1 hp with h1 | h1
        · exact hs p h1
        · simp only [List.mem_singleton] at h1
          subst h1
          assumption
      · exact hs p hp

end Split

/-! ## The claims -/

/-- C1: for every sample array, gap value and every `MaxSample` accepted by the
checks of `proc_argv` (which is `1 <= MaxSample <= 1008`), the loop is left
within `npts` passes and every packet written has `nsamp <= MaxSample` and a
size of `64 + 4 * nsamp` bytes, at most `MAX_TRACEBUF_SIZ` = 4096, where 64 is
`sizeof(TRACE2_HEADER)`. -/
theorem C1_packet_size_bound (fmul : ℚ → ℚ → ℚ) (InputFile : Option String) (MaxSample : Int)
    (Multiplier GapValue delta : ℚ) (tmpl : TRACE2_HEADER) (starttime : ℚ) (seis : List ℚ)
    (fuel : Nat) (hok : proc_argv_check InputFile MaxSample = 0) (hfuel : seis.length ≤ fuel) :
    1 ≤ MaxSample ∧ MaxSample ≤ 1008 ∧ sizeof_TRACE2_HEADER = 64 ∧ MAX_TRACEBUF_SIZ = 4096 ∧
    ∃ pk, packets fmul MaxSample Multiplier GapValue delta tmpl starttime seis fuel = some pk ∧
      ∀ p ∈ pk, (p.trh2.nsamp : Int) ≤ MaxSample ∧ p.size = 64 + 4 * p.trh2.nsamp ∧
        p.size ≤ MAX_TRACEBUF_SIZ := by
  have hM : 1 ≤ MaxSample ∧ MaxSample ≤ 1008 := by
    unfold proc_argv_check at hok
    split at hok
    · simp at hok
    · split at hok
      · simp at hok
      · split at hok
        · simp at hok
        · rename_i _ h1 h2
          have h3 : (((MAX_TRACEBUF_SIZ - sizeof_TRACE2_HEADER) / 4 : Nat) : Int) = 1008 := by
            decide
          rw [h3] at h2
          omega
  refine ⟨hM.1, hM.2, rfl, rfl, ?_⟩
  obtain ⟨pk, h1, h2⟩ := @packets_chunked fmul MaxSample Multiplier GapValue delta
    tmpl starttime seis fuel hM.1 hfuel
  refine ⟨pk, h1, fun p hp => ?_⟩
  obtain ⟨-, h3, -, -⟩ := chunked_each h2 p hp
  have h4 : sizeof_TRACE2_HEADER = 64 := rfl
  have h5 : MAX_TRACEBUF_SIZ = 4096 := rfl
  refine ⟨h3, ?_, ?_⟩
  · simp only [TracePacket.size, h4]; omega
  · simp only [TracePacket.size, h4, h5]; omega

/-- Witness of C1: `MaxSample` 3, six samples, one of them the gap value. -/
theorem C1_packet_size_bound_witness :
    1 ≤ (3 : Int) ∧ (3 : Int) ≤ 1008 ∧ sizeof_TRACE2_HEADER = 64 ∧ MAX_TRACEBUF_SIZ = 4096 ∧
    ∃ pk, packets exampleMul 3 1 (-12345) (1 / 100) exampleHeader 1000 [1, 2, 3, 4, -12345, 5] 6 = some pk ∧
      ∀ p ∈ pk, (p.trh2.nsamp : Int) ≤ 3 ∧ p.size = 64 + 4 * p.trh2.nsamp ∧
        p.size ≤ MAX_TRACEBUF_SIZ :=
  C1_packet_size_bound exampleMul (some "in.sac") 3 1 (-12345) (1 / 100) exampleHeader 1000
    [1, 2, 3, 4, -12345, 5] 6 (by decide) (by decide)

/-- C2: for every sample array, gap value and `MaxSample >= 1`, the loop is left
within `npts` passes and the sum of `nsamp` over the packets written equals the
number of source samples that differ from `GapValue`. -/
theorem C2_sample_conservation (fmul : ℚ → ℚ → ℚ) (MaxSample : Int) (Multiplier GapValue delta : ℚ)
    (tmpl : TRACE2_HEADER) (starttime : ℚ) (seis : List ℚ) (fuel : Nat)
    (hM : 1 ≤ MaxSample) (hfuel : seis.length ≤ fuel) :
    ∃ pk, packets fmul MaxSample Multiplier GapValue delta tmpl starttime seis fuel = some pk ∧
      (pk.map (fun p => p.trh2.nsamp)).sum = seis.countP (fun v => decide (v ≠ GapValue)) := by
  obtain ⟨pk, h1, h2⟩ := @packets_chunked fmul MaxSample Multiplier GapValue delta
    tmpl starttime seis fuel hM hfuel
  exact ⟨pk, h1, chunked_total h2⟩

/-- Witness of C2: seven samples, three of them the gap value, `MaxSample` 2. -/
theorem C2_sample_conservation_witness :
    ∃ pk, packets exampleMul 2 1 (-12345) (1 / 100) exampleHeader 1000
        [-12345, 1, 2, 3, -12345, -12345, 4] 7 = some pk ∧
      (pk.map (fun p => p.trh2.nsamp)).sum
        = ([-12345, 1, 2, 3, -12345, -12345, 4] : List ℚ).countP
            (fun v => decide (v ≠ -12345)) :=
  C2_sample_conservation exampleMul 2 1 (-12345) (1 / 100) exampleHeader 1000
    [-12345, 1, 2, 3, -12345, -12345, 4] 7 (by decide) (by decide)

/-- C3: for every sample array, gap value, multiplier and `MaxSample >= 1`, the
data of the packets written, concatenated in the order of writing, are the
source samples without the gap values, each encoded as
`(int32_t)(Multiplier * v)`, in source order; and the `nsamp` of each packet is
the number of its data words. -/
theorem C3_payload_concatenation (fmul : ℚ → ℚ → ℚ) (MaxSample : Int) (Multiplier GapValue delta : ℚ)
    (tmpl : TRACE2_HEADER) (starttime : ℚ) (seis : List ℚ) (fuel : Nat)
    (hM : 1 ≤ MaxSample) (hfuel : seis.length ≤ fuel) :
    ∃ pk, packets fmul MaxSample Multiplier GapValue delta tmpl starttime seis fuel = some pk ∧
      (pk.map (fun p => p.data)).flatten
        = (seis.filter (fun v => decide (v ≠ GapValue))).map
            (fun v => int32_cast (fmul Multiplier v)) ∧
      ∀ p ∈ pk, p.trh2.nsamp = p.data.length := by
  obtain ⟨pk, h1, h2⟩ := @packets_chunked fmul MaxSample Multiplier GapValue delta
    tmpl starttime seis fuel hM hfuel
  exact ⟨pk, h1, chunked_data h2, fun p hp => (chunked_each h2 p hp).2.2.1.symm⟩

/-- Witness of C3: multiplier 10, samples with fractions and two gap values. -/
theorem C3_payload_concatenation_witness :
    ∃ pk, packets exampleMul 2 10 (-12345) (1 / 100) exampleHeader 1000
        [1 / 4, -12345, -27 / 100, 3, 4, -12345] 6 = some pk ∧
      (pk.map (fun p => p.data)).flatten
        = (([1 / 4, -12345, -27 / 100, 3, 4, -12345] : List ℚ).filter
            (fun v => decide (v ≠ -12345))).map (fun v => int32_cast (exampleMul 10 v)) ∧
      ∀ p ∈ pk, p.trh2.nsamp = p.data.length :=
  C3_payload_concatenation exampleMul 2 10 (-12345) (1 / 100) exampleHeader 1000
    [1 / 4, -12345, -27 / 100, 3, 4, -12345] 6 (by decide) (by decide)

/-- C4: no packet with `nsamp == 0` is ever written: whatever the samples, the
gap value and `MaxSample`, every packet written by a run of the loop has
`nsamp != 0`; and with `MaxSample >= 1` the loop is left within `npts` passes,
so that there is such a run. -/
theorem C4_no_empty_packet (fmul : ℚ → ℚ → ℚ) (MaxSample : Int) (Multiplier GapValue delta : ℚ)
    (tmpl : TRACE2_HEADER) (starttime : ℚ) (seis : List ℚ) (fuel : Nat) :
    (∀ pk, packets fmul MaxSample Multiplier GapValue delta tmpl starttime seis fuel = some pk →
      ∀ p ∈ pk, p.trh2.nsamp ≠ 0) ∧
    (1 ≤ MaxSample → seis.length ≤ fuel →
      ∃ pk, packets fmul MaxSample Multiplier GapValue delta tmpl starttime seis fuel = some pk) := by
  constructor
  · intro pk h
    simp only [packets, Option.map_eq_some'] at h
    obtain ⟨s1, h1, h2⟩ := h
    rw [← h2]
    exact whileLoop_nonempty fmul MaxSample Multiplier GapValue delta fuel _ s1 h1
      (by simp [initState])
  · intro hM hfuel
    obtain ⟨pk, h1, -⟩ := @packets_chunked fmul MaxSample Multiplier GapValue delta
      tmpl starttime seis fuel hM hfuel
    exact ⟨pk, h1⟩

/-- Witness of C4: samples that begin with gap values, have a gap value right
after a full packet, and end with gap values. -/
theorem C4_no_empty_packet_witness :
    ∃ pk, packets exampleMul 2 1 (-12345) (1 / 100) exampleHeader 1000
        [-12345, -12345, 1, 2, -12345, 3, -12345, -12345] 8 = some pk ∧
      ∀ p ∈ pk, p.trh2.nsamp ≠ 0 := by
  obtain ⟨pk, h⟩ := (C4_no_empty_packet exampleMul 2 1 (-12345) (1 / 100) exampleHeader 1000
    [-12345, -12345, 1, 2, -12345, 3, -12345, -12345] 8).2 (by decide) (by decide)
  exact ⟨pk, h, (C4_no_empty_packet exampleMul 2 1 (-12345) (1 / 100) exampleHeader 1000
    [-12345, -12345, 1, 2, -12345, 3, -12345, -12345] 8).1 pk h⟩

/-- C5: for every packet written there is a source index `s` such that the
`nsamp >= 1` source samples at indices `s .. s+nsamp-1` all differ from the gap
value, the data are the encoding of exactly those samples, and the `starttime`
of the packet is the reference start time plus `s` periods; the first packet
starts as many periods late as there are leading gap values. -/
theorem C5_start_time_of_first_sample (fmul : ℚ → ℚ → ℚ) (MaxSample : Int) (Multiplier GapValue delta : ℚ)
    (tmpl : TRACE2_HEADER) (starttime : ℚ) (seis : List ℚ) (fuel : Nat)
    (hM : 1 ≤ MaxSample) (hfuel : seis.length ≤ fuel) :
    ∃ pk, packets fmul MaxSample Multiplier GapValue delta tmpl starttime seis fuel = some pk ∧
      (∀ p ∈ pk, ∃ s : Nat, 1 ≤ p.trh2.nsamp ∧ s + p.trh2.nsamp ≤ seis.length ∧
        (∀ v ∈ (seis.drop s).take p.trh2.nsamp, v ≠ GapValue) ∧
        p.data = ((seis.drop s).take p.trh2.nsamp).map (fun v => int32_cast (fmul Multiplier v)) ∧
        p.trh2.starttime = starttime + (s : ℚ) * delta) ∧
      (∀ p, pk.head? = some p →
        p.trh2.starttime = starttime
          + ((seis.takeWhile (fun v => decide (v = GapValue))).length : ℚ) * delta) := by
  obtain ⟨pk, h1, h2⟩ := @packets_chunked fmul MaxSample Multiplier GapValue delta
    tmpl starttime seis fuel hM hfuel
  refine ⟨pk, h1, fun p hp => ?_, chunked_head h2⟩
  obtain ⟨s, h3, h4, h5, h6⟩ := chunked_window h2 p hp
  exact ⟨s, Nat.one_le_iff_ne_zero.2 (chunked_each h2 p hp).1, h3, h4, h5, h6⟩

/-- Witness of C5: two leading gap values, then three samples, a gap value and
one more sample, with `MaxSample` 2. -/
theorem C5_start_time_of_first_sample_witness :
    ∃ pk, packets exampleMul 2 1 (-12345) (1 / 100) exampleHeader 1000
        [-12345, -12345, 1, 2, 3, -12345, 4] 7 = some pk ∧
      (∀ p ∈ pk, ∃ s : Nat, 1 ≤ p.trh2.nsamp ∧
        s + p.trh2.nsamp ≤ ([-12345, -12345, 1, 2, 3, -12345, 4] : List ℚ).length ∧
        (∀ v ∈ (([-12345, -12345, 1, 2, 3, -12345, 4] : List ℚ).drop s).take p.trh2.nsamp,
          v ≠ -12345) ∧
        p.data = ((([-12345, -12345, 1, 2, 3, -12345, 4] : List ℚ).drop s).take
          p.trh2.nsamp).map (fun v => int32_cast (exampleMul 1 v)) ∧
        p.trh2.starttime = 1000 + (s : ℚ) * (1 / 100)) ∧
      (∀ p, pk.head? = some p →
        p.trh2.starttime = 1000
          + (((([-12345, -12345, 1, 2, 3, -12345, 4] : List ℚ).takeWhile
              (fun v => decide (v = -12345))).length : Nat) : ℚ) * (1 / 100)) :=
  C5_start_time_of_first_sample exampleMul 2 1 (-12345) (1 / 100) exampleHeader 1000
    [-12345, -12345, 1, 2, 3, -12345, 4] 7 (by decide) (by decide)

/-- C6: for every packet written, `endtime == starttime + (nsamp - 1) * period`,
the period being the `delta` the loop works with (times as exact rationals). -/
theorem C6_end_time (fmul : ℚ → ℚ → ℚ) (MaxSample : Int) (Multiplier GapValue delta : ℚ)
    (tmpl : TRACE2_HEADER) (starttime : ℚ) (seis : List ℚ) (fuel : Nat)
    (hM : 1 ≤ MaxSample) (hfuel : seis.length ≤ fuel) :
    ∃ pk, packets fmul MaxSample Multiplier GapValue delta tmpl starttime seis fuel = some pk ∧
      ∀ p ∈ pk, p.trh2.endtime = p.trh2.starttime + ((p.trh2.nsamp : ℚ) - 1) * delta := by
  obtain ⟨pk, h1, h2⟩ := @packets_chunked fmul MaxSample Multiplier GapValue delta
    tmpl starttime seis fuel hM hfuel
  exact ⟨pk, h1, fun p hp => (chunked_each h2 p hp).2.2.2⟩

/-- Witness of C6: a packet after skipped gap values, a packet closed by a gap
value and a full packet. -/
theorem C6_end_time_witness :
    ∃ pk, packets exampleMul 3 1 (-12345) (1 / 50) exampleHeader 1000
        [-12345, 1, 2, -12345, 3, 4, 5, 6] 8 = some pk ∧
      ∀ p ∈ pk, p.trh2.endtime = p.trh2.starttime + ((p.trh2.nsamp : ℚ) - 1) * (1 / 50) :=
  C6_end_time exampleMul 3 1 (-12345) (1 / 50) exampleHeader 1000
    [-12345, 1, 2, -12345, 3, 4, 5, 6] 8 (by decide) (by decide)

/-- C7: with a period `> 0`, for every two packets written one after the other,
the `starttime` of the second is at least the `endtime` of the first. -/
theorem C7_time_monotone (fmul : ℚ → ℚ → ℚ) (MaxSample : Int) (Multiplier GapValue delta : ℚ)
    (tmpl : TRACE2_HEADER) (starttime : ℚ) (seis : List ℚ) (fuel : Nat)
    (hM : 1 ≤ MaxSample) (hfuel : seis.length ≤ fuel) (hd : 0 < delta) :
    ∃ pk, packets fmul MaxSample Multiplier GapValue delta tmpl starttime seis fuel = some pk ∧
      ∀ (i : Nat) (h : i + 1 < pk.length),
        (pk.get ⟨i, Nat.lt_of_succ_lt h⟩).trh2.endtime ≤ (pk.get ⟨i + 1, h⟩).trh2.starttime := by
  obtain ⟨pk, h1, h2⟩ := @packets_chunked fmul MaxSample Multiplier GapValue delta
    tmpl starttime seis fuel hM hfuel
  refine ⟨pk, h1, fun i h => ?_⟩
  have h3 := List.chain'_iff_get.1 (chunked_order h2 hd.le).2 i (by omega)
  linarith

/-- Witness of C7: four packets, 50 samples a second. -/
theorem C7_time_monotone_witness :
    ∃ pk, packets exampleMul 3 1 (-12345) (1 / 50) exampleHeader 1000
        [-12345, 1, 2, -12345, 3, 4, 5, 6] 8 = some pk ∧
      ∀ (i : Nat) (h : i + 1 < pk.length),
        (pk.get ⟨i, Nat.lt_of_succ_lt h⟩).trh2.endtime ≤ (pk.get ⟨i + 1, h⟩).trh2.starttime :=
  C7_time_monotone exampleMul 3 1 (-12345) (1 / 50) exampleHeader 1000
    [-12345, 1, 2, -12345, 3, 4, 5, 6] 8 (by decide) (by decide) (by norm_num)

/-- The counts of the split of a non-empty sample array without gap values. -/
theorem chunked_gapfree_counts {fmul : ℚ → ℚ → ℚ} {m : Nat} {Multiplier GapValue delta : ℚ} {tmpl : TRACE2_HEADER}
    {t : ℚ} {seis : List ℚ} {pk : List TracePacket}
    (hc : Chunked fmul (m : Int) Multiplier GapValue delta tmpl t seis pk)
    (hfree : ∀ v ∈ seis, v ≠ GapValue) (hne : seis ≠ []) :
    pk.length = (seis.length + m - 1) / m ∧
    pk.map (fun p => p.trh2.nsamp)
      = List.replicate ((seis.length + m - 1) / m - 1) m
          ++ [seis.length - m * ((seis.length + m - 1) / m - 1)] ∧
    (seis.length ≤ m → pk.map (fun p => p.trh2.nsamp) = [seis.length]) := by
  obtain ⟨q, l, h1, h2, h3, h4, -, -⟩ := chunked_gapfree hc hfree hne
  obtain ⟨e1, e2⟩ := ceil_div_of_decomp h1 h2 h3
  have hlen : pk.length = q + 1 := by
    have := congrArg List.length h4
    simpa using this
  refine ⟨by rw [hlen, e1], by rw [e2, e1, h4, Nat.add_sub_cancel], fun hle => ?_⟩
  have hq : q = 0 := by
    rcases Nat.eq_zero_or_pos q with h | h
    · exact h
    · have := Nat.le_mul_of_pos_left m h
      omega
  subst hq
  rw [h4, h3]
  simp

/-- C9: for a source of `n >= 1` samples without gap values and `MaxSample`
`m >= 1`, the loop writes `ceil(n/m)` packets, each of `m` samples but the
last, which has `n - m * (ceil(n/m) - 1)` samples; the first packet starts at
the reference start time and the last ends `n - 1` periods after it. -/
theorem C9_gap_free_source (fmul : ℚ → ℚ → ℚ) (m : Nat) (Multiplier GapValue delta : ℚ) (tmpl : TRACE2_HEADER)
    (starttime : ℚ) (seis : List ℚ) (fuel : Nat) (hm : 1 ≤ m) (hn : 1 ≤ seis.length)
    (hfree : ∀ v ∈ seis, v ≠ GapValue) (hfuel : seis.length ≤ fuel) :
    ∃ pk, packets fmul (m : Int) Multiplier GapValue delta tmpl starttime seis fuel = some pk ∧
      pk.length = (seis.length + m - 1) / m ∧
      pk.map (fun p => p.trh2.nsamp)
        = List.replicate ((seis.length + m - 1) / m - 1) m
            ++ [seis.length - m * ((seis.length + m - 1) / m - 1)] ∧
      pk.head?.map (fun p => p.trh2.starttime) = some starttime ∧
      pk.getLast?.map (fun p => p.trh2.endtime)
        = some (starttime + ((seis.length : ℚ) - 1) * delta) := by
  have hM : (1 : Int) ≤ (m : Int) := by exact_mod_cast hm
  have hne : seis ≠ [] := by
    intro h0
    rw [h0] at hn
    simp at hn
  obtain ⟨pk, h1, h2⟩ := @packets_chunked fmul (m : Int) Multiplier GapValue delta
    tmpl starttime seis fuel hM hfuel
  obtain ⟨c1, c2, -⟩ := chunked_gapfree_counts h2 hfree hne
  obtain ⟨q, l, -, -, -, -, t1, t2⟩ := chunked_gapfree h2 hfree hne
  exact ⟨pk, h1, c1, c2, t1, t2⟩

/-- Witness of C9: 250 samples, `MaxSample` 100, period 0.01 s: three packets
of 100, 100 and 50 samples, the first starting at the reference time 1000 and
the last ending at `1000 + 249 * 0.01`. -/
theorem C9_gap_free_source_witness :
    ∃ pk, packets exampleMul 100 1 (-12345) (1 / 100) exampleHeader 1000
        ((List.range 250).map (fun k : Nat => (k : ℚ))) 250 = some pk ∧
      pk.length = 3 ∧
      pk.map (fun p => p.trh2.nsamp) = [100, 100, 50] ∧
      pk.head?.map (fun p => p.trh2.starttime) = some 1000 ∧
      pk.getLast?.map (fun p => p.trh2.endtime) = some (1000 + 249 * (1 / 100)) := by
  have h := C9_gap_free_source exampleMul 100 1 (-12345) (1 / 100) exampleHeader 1000
    ((List.range 250).map (fun k : Nat => (k : ℚ))) 250 (by decide) (by simp)
    (by
      intro v hv
      obtain ⟨k, -, rfl⟩ := List.mem_map.1 hv
      have : (0 : ℚ) ≤ (k : ℚ) := Nat.cast_nonneg k
      linarith)
    (by simp)
  simp only [List.length_map, List.length_range] at h
  obtain ⟨pk, h1, h2, h3, h4, h5⟩ := h
  refine ⟨pk, by simpa using h1, h2, h3, h4, ?_⟩
  rw [h5]
  norm_num

/-- Reading a string from a buffer stops at the first NUL, so NULs after the
buffer do not change the string. -/
theorem cstr_append_nul (buf : List Char) : cstr (buf ++ [NUL, NUL]) = cstr buf := by
  induction buf with
  | nil => simp [cstr]
  | cons c cs ih =>
    unfold cstr at ih ⊢
    by_cases hc : c = NUL
    · simp [List.takeWhile_cons, hc]
    · simp only [List.cons_append, List.takeWhile_cons, ne_eq, hc, not_false_eq_true,
        decide_True, if_true, ih]

/-- C10 (the code departs from the claim): whenever the trimmed location code
is neither the SAC undefined string nor two spaces, which is when the claim
says it is written unchanged, line 142 overwrites it: the `loc` field written
is `--` followed by NUL. -/
theorem C10_real_location_replaced (K_LEN : Nat) (SACSTRUNDEF khole : List Char)
    (h1 : cstr (trimmed_loc K_LEN khole) ≠ cstr SACSTRUNDEF)
    (h2 : cstr (trimmed_loc K_LEN khole) ≠ [' ', ' ']) :
    main_loc K_LEN SACSTRUNDEF khole = ['-', '-', NUL] := by
  have e2 : cstr [' ', ' '] = [' ', ' '] := by decide
  have c1 : strcmp (trimmed_loc K_LEN khole ++ [NUL, NUL]) SACSTRUNDEF ≠ 0 := by
    unfold strcmp
    rw [cstr_append_nul, if_neg h1]
    split <;> decide
  have c2 : strcmp (trimmed_loc K_LEN khole ++ [NUL, NUL]) [' ', ' '] ≠ 0 := by
    unfold strcmp
    rw [cstr_append_nul, e2, if_neg h2]
    split <;> decide
  unfold trimmed_loc at c1 c2
  unfold main_loc
  simp only [c1, c2, ne_eq, not_false_eq_true, and_self, if_true]
  rfl

/-- C10 at the location code `00` of an 8-character `khole`, the SAC undefined
string being `-12345` and two spaces: the trimmed code is `00`, the `loc`
field written is `--`. -/
theorem C10_real_location_replaced_witness :
    cstr (trimmed_loc 8 ['0', '0', ' ', ' ', ' ', ' ', ' ', ' ']) = ['0', '0'] ∧
    main_loc 8 ['-', '1', '2', '3', '4', '5', ' ', ' ']
      ['0', '0', ' ', ' ', ' ', ' ', ' ', ' '] = ['-', '-', NUL] :=
  ⟨by decide, C10_real_location_replaced 8 ['-', '1', '2', '3', '4', '5', ' ', ' ']
    ['0', '0', ' ', ' ', ' ', ' ', ' ', ' '] (by decide) (by decide)⟩

/-! ## The identification fields -/

theorem strncpy_length (src : List Char) (n : Nat) : (strncpy src n).length = n := by
  unfold strncpy
  simp only [List.length_append, List.length_replicate, List.length_take]
  omega

/-- The characters that `trim_string` keeps are no more than it was given. -/
theorem kept_length_le (buf : List Char) :
    ((buf.reverse.dropWhile (fun x => isspace x || decide (x = NUL))).reverse).length
      ≤ buf.length := by
  rw [List.length_reverse]
  have h : (buf.reverse.dropWhile (fun x => isspace x || decide (x = NUL))).length
      ≤ buf.reverse.length := (List.dropWhile_sublist _).length_le
  rwa [List.length_reverse] at h

theorem trim_string_length (str : List Char) (size : Nat) :
    (trim_string str size).length = str.length := by
  cases str with
  | nil => rfl
  | cons c cs =>
    unfold trim_string
    by_cases hc : c = NUL
    · simp [hc]
    · simp only [hc, if_false, List.length_append, List.length_replicate, List.length_drop]
      have h1 := kept_length_le ((c :: cs).take size)
      have h2 : ((c :: cs).take size).length ≤ (c :: cs).length := by
        rw [List.length_take]; exact Nat.min_le_right _ _
      have h3 : ((c :: cs).take size).length = min size (c :: cs).length := List.length_take _ _
      omega

theorem cstr_append_replicate (l : List Char) (k : Nat) :
    cstr (l ++ List.replicate k NUL) = cstr l := by
  induction l with
  | nil => cases k <;> simp [cstr, List.replicate_succ]
  | cons c cs ih =>
    unfold cstr at ih ⊢
    by_cases hc : c = NUL
    · simp [List.takeWhile_cons, hc]
    · simp only [List.cons_append, List.takeWhile_cons, ne_eq, hc, not_false_eq_true,
        decide_True, if_true, ih]

/-- What `trim_string` keeps of at most three characters is never the string of
two spaces: it does not end with a space or a NUL. -/
theorem cstr_kept_ne (buf : List Char) (hlen : buf.length ≤ 3) :
    cstr ((buf.reverse.dropWhile (fun x => isspace x || decide (x = NUL))).reverse)
      ≠ [' ', ' '] := by
  intro h
  have hklen := kept_length_le buf
  have hsplit := List.takeWhile_append_dropWhile (fun c => decide (c ≠ NUL))
    ((buf.reverse.dropWhile (fun x => isspace x || decide (x = NUL))).reverse)
  unfold cstr at h
  rw [h] at hsplit
  have hne : (buf.reverse.dropWhile (fun x => isspace x || decide (x = NUL))).reverse ≠ [] := by
    rw [← hsplit]; simp
  have hlast := List.rdropWhile_last_not (fun x => isspace x || decide (x = NUL)) buf hne
  have hd := List.head?_dropWhile_not (fun c => decide (c ≠ NUL))
    ((buf.reverse.dropWhile (fun x => isspace x || decide (x = NUL))).reverse)
  unfold List.rdropWhile at hlast
  generalize hk : (buf.reverse.dropWhile (fun x => isspace x || decide (x = NUL))).reverse = kept
    at hsplit hne hlast hd hklen
  generalize hdd : List.dropWhile (fun c => decide (c ≠ NUL)) kept = d at hsplit hd
  cases d with
  | nil =>
    simp only [List.append_nil] at hsplit
    subst hsplit
    simp [isspace] at hlast
  | cons y d1 =>
    simp only [List.head?_cons, ne_eq, decide_not, Bool.not_eq_false', decide_eq_true_eq] at hd
    cases d1 with
    | nil =>
      subst hsplit
      simp [hd] at hlast
    | cons z d2 =>
      have := congrArg List.length hsplit
      simp only [List.length_append, List.length_cons] at this
      omega

/-- Three characters trimmed by `trim_string` are never the string of two
spaces. -/
theorem cstr_trim_ne (buf : List Char) (hlen : buf.length = 3) :
    cstr (trim_string buf 3) ≠ [' ', ' '] := by
  cases buf with
  | nil => simp [trim_string, cstr]
  | cons c cs =>
    unfold trim_string
    by_cases hc : c = NUL
    · simp [hc, cstr]
    · have hdrop : (c :: cs).drop 3 = [] := List.drop_eq_nil_of_le (by omega)
      have htake : (c :: cs).take 3 = c :: cs := List.take_of_length_le (by omega)
      simp only [hc, if_false, hdrop, htake, List.append_nil]
      rw [cstr_append_replicate]
      exact cstr_kept_ne (c :: cs) (by omega)

/-- When the SAC undefined string is longer than the `loc` field, the test of
line 141 succeeds whatever the location code is, and line 142 writes `--`. -/
theorem main_loc_always (K_LEN : Nat) (SACSTRUNDEF khole : List Char)
    (hU : TRACE2_LOC_LEN < (cstr SACSTRUNDEF).length) :
    main_loc K_LEN SACSTRUNDEF khole = ['-', '-', NUL] := by
  have hlen0 : ∀ n, n ≤ TRACE2_LOC_LEN →
      (strncpy khole n ++ List.replicate (TRACE2_LOC_LEN - n) NUL).length = TRACE2_LOC_LEN := by
    intro n hn
    rw [List.length_append, strncpy_length, List.length_replicate]
    omega
  have hn : (if TRACE2_LOC_LEN > K_LEN then K_LEN else TRACE2_LOC_LEN) ≤ TRACE2_LOC_LEN := by
    split <;> omega
  have hlen := hlen0 _ hn
  have hlen1 : (trimmed_loc K_LEN khole).length = TRACE2_LOC_LEN := by
    unfold trimmed_loc
    rw [trim_string_length, hlen]
  have h1 : cstr (trimmed_loc K_LEN khole) ≠ cstr SACSTRUNDEF := by
    intro h
    have h3 : (cstr (trimmed_loc K_LEN khole)).length ≤ (trimmed_loc K_LEN khole).length :=
      (List.takeWhile_sublist _).length_le
    rw [h, hlen1] at h3
    omega
  have h2 : cstr (trimmed_loc K_LEN khole) ≠ [' ', ' '] := by
    unfold trimmed_loc
    exact cstr_trim_ne _ hlen
  have e2 : cstr [' ', ' '] = [' ', ' '] := by decide
  have c1 : strcmp (trimmed_loc K_LEN khole ++ [NUL, NUL]) SACSTRUNDEF ≠ 0 := by
    unfold strcmp
    rw [cstr_append_nul, if_neg h1]
    split <;> decide
  have c2 : strcmp (trimmed_loc K_LEN khole ++ [NUL, NUL]) [' ', ' '] ≠ 0 := by
    unfold strcmp
    rw [cstr_append_nul, e2, if_neg h2]
    split <;> decide
  unfold trimmed_loc at c1 c2
  unfold main_loc
  simp only [c1, c2, ne_eq, not_false_eq_true, and_self, if_true]
  rfl

/-- C11: when the SAC undefined string is longer than the three characters of
the `loc` field (it is `-12345` and two spaces), a source location that is all
blanks and NULs, or is exactly two spaces, or is the SAC undefined string, is
written to the header as `--`, followed by NUL inside the three characters of
the field. -/
theorem C11_null_location (K_LEN : Nat) (SACSTRUNDEF khole : List Char)
    (hU : TRACE2_LOC_LEN < (cstr SACSTRUNDEF).length)
    (_hnull : (∀ c ∈ khole, c = ' ' ∨ c = NUL) ∨ cstr khole = [' ', ' ']
      ∨ khole = SACSTRUNDEF) :
    main_loc K_LEN SACSTRUNDEF khole = LOC_NULL_STRING ++ [NUL] ∧
    (main_loc K_LEN SACSTRUNDEF khole).length = TRACE2_LOC_LEN ∧
    cstr (main_loc K_LEN SACSTRUNDEF khole) = LOC_NULL_STRING := by
  rw [main_loc_always K_LEN SACSTRUNDEF khole hU]
  exact ⟨rfl, rfl, by decide⟩

/-- Witness of C11: the location field holding the SAC undefined string. -/
theorem C11_null_location_witness :
    main_loc 8 ['-', '1', '2', '3', '4', '5', ' ', ' ']
        ['-', '1', '2', '3', '4', '5', ' ', ' '] = LOC_NULL_STRING ++ [NUL] ∧
    (main_loc 8 ['-', '1', '2', '3', '4', '5', ' ', ' ']
        ['-', '1', '2', '3', '4', '5', ' ', ' ']).length = TRACE2_LOC_LEN ∧
    cstr (main_loc 8 ['-', '1', '2', '3', '4', '5', ' ', ' ']
        ['-', '1', '2', '3', '4', '5', ' ', ' ']) = LOC_NULL_STRING :=
  C11_null_location 8 ['-', '1', '2', '3', '4', '5', ' ', ' ']
    ['-', '1', '2', '3', '4', '5', ' ', ' '] (by decide) (Or.inr (Or.inr rfl))

/-- The four characters that lines 125-126 leave in `chan`. -/
theorem trimmed_chan_length (K_LEN : Nat) (kcmpnm : List Char) :
    (trimmed_chan K_LEN kcmpnm).length = 4 := by
  unfold trimmed_chan
  rw [trim_string_length, List.length_append, strncpy_length, List.length_replicate]
  have h : TRACE2_CHAN_LEN = 4 := rfl
  rw [h]
  split <;> omega

/-- C12 fails as stated: with the fixup flag set, the ordinary channel code
`EHZ` (trimmed from the eight characters `EHZ` and five spaces) is written to
the header as `EH`. -/
theorem C12_counterexample :
    trimmed_chan 8 ['E', 'H', 'Z', ' ', ' ', ' ', ' ', ' '] = ['E', 'H', 'Z', NUL] ∧
    main_chan 8 true ['E', 'H', 'Z', ' ', ' ', ' ', ' ', ' '] = ['E', 'H', NUL, NUL] ∧
    main_chan 8 true ['E', 'H', 'Z', ' ', ' ', ' ', ' ', ' ']
      ≠ trimmed_chan 8 ['E', 'H', 'Z', ' ', ' ', ' ', ' ', ' '] := by
  decide

/-- C12, amended: with the fixup flag set, the `chan` field written is the
trimmed code with its fourth character moved into the third place and NUL in
the fourth place, whatever the form of the code; it is the trimmed code
unchanged exactly when the third and fourth characters of the trimmed code are
both NUL. -/
theorem C12_fixup_every_code (K_LEN : Nat) (kcmpnm : List Char) :
    ∃ c0 c1 c2 c3, trimmed_chan K_LEN kcmpnm = [c0, c1, c2, c3] ∧
      main_chan K_LEN true kcmpnm = [c0, c1, c3, NUL] ∧
      (main_chan K_LEN true kcmpnm = trimmed_chan K_LEN kcmpnm ↔ c2 = NUL ∧ c3 = NUL) := by
  have hlen := trimmed_chan_length K_LEN kcmpnm
  have hm : main_chan K_LEN true kcmpnm
      = ((trimmed_chan K_LEN kcmpnm).set 2 ((trimmed_chan K_LEN kcmpnm).getD 3 NUL)).set 3 NUL := by
    unfold main_chan trimmed_chan
    simp
  generalize trimmed_chan K_LEN kcmpnm = t at hlen hm
  match t, hlen with
  | [c0, c1, c2, c3], _ =>
    refine ⟨c0, c1, c2, c3, rfl, ?_, ?_⟩
    · rw [hm]; rfl
    · rw [hm]
      simp only [List.getD_cons_succ, List.getD_cons_zero, List.set_cons_succ, List.set_cons_zero,
        List.cons.injEq, true_and, and_true]
      constructor
      · rintro ⟨h1, h2⟩
        exact ⟨h1 ▸ h2.symm, h2.symm⟩
      · rintro ⟨h1, h2⟩
        exact ⟨h2.trans h1.symm, h2.symm⟩

/-- C13: for a source channel field that begins with `c0 c1`, a space and `c3`
(no NUL among them, `c3` not a space character), whatever follows them: with
the fixup flag set the `chan` field written is `c0 c1 c3` followed by NUL; with
the flag clear it holds the four characters `c0 c1`, space, `c3`. -/
theorem C13_split_channel (K_LEN : Nat) (c0 c1 c3 : Char) (pad : List Char)
    (hK : 4 ≤ K_LEN) (h0 : c0 ≠ NUL) (h1 : c1 ≠ NUL) (h3 : c3 ≠ NUL)
    (hs : isspace c3 = false) :
    main_chan K_LEN true ([c0, c1, ' ', c3] ++ pad) = [c0, c1, c3, NUL] ∧
    main_chan K_LEN false ([c0, c1, ' ', c3] ++ pad) = [c0, c1, ' ', c3] := by
  have hsp : (' ' : Char) ≠ NUL := by decide
  have hn : (if 4 > K_LEN then K_LEN else 4) = 4 := by
    split <;> omega
  have hcopy : strncpy ([c0, c1, ' ', c3] ++ pad) 4 = [c0, c1, ' ', c3] := by
    simp [strncpy, cstr, List.takeWhile_cons, h0, h1, h3, hsp]
  have htrim : trim_string [c0, c1, ' ', c3] 4 = [c0, c1, ' ', c3] := by
    simp [trim_string, h0, hs, h3, List.dropWhile_cons]
  have hc : TRACE2_CHAN_LEN = 4 := rfl
  unfold main_chan
  simp only [hc, hn, hcopy, Nat.sub_self, List.replicate_zero, List.append_nil, htrim]
  exact ⟨rfl, rfl⟩

/-- Witness of C13: the channel field `EH Z` padded with four spaces. -/
theorem C13_split_channel_witness :
    main_chan 8 true (['E', 'H', ' ', 'Z'] ++ [' ', ' ', ' ', ' ']) = ['E', 'H', 'Z', NUL] ∧
    main_chan 8 false (['E', 'H', ' ', 'Z'] ++ [' ', ' ', ' ', ' ']) = ['E', 'H', ' ', 'Z'] :=
  C13_split_channel 8 'E' 'H' 'Z' [' ', ' ', ' ', ' '] (by decide) (by decide) (by decide)
    (by decide) (by decide)

/-- C14 (the code departs from the claim): the channel field `EH Z` of a SEISAN
file, run without the fixup flag, fills the four characters of `chan` and
leaves no NUL in them, so that the string read at `chan` runs on into `loc`;
the eight-character station code `ABCDEFGH` is cut to the seven characters of
`sta`, again with no NUL in them. -/
theorem C14_identifier_not_terminated :
    main_chan 8 false ['E', 'H', ' ', 'Z', ' ', ' ', ' ', ' '] = ['E', 'H', ' ', 'Z'] ∧
    NUL ∉ main_chan 8 false ['E', 'H', ' ', 'Z', ' ', ' ', ' ', ' '] ∧
    cstr (main_chan 8 false ['E', 'H', ' ', 'Z', ' ', ' ', ' ', ' ']
        ++ main_loc 8 ['-', '1', '2', '3', '4', '5', ' ', ' ']
          ['0', '0', ' ', ' ', ' ', ' ', ' ', ' '])
      = ['E', 'H', ' ', 'Z', '-', '-'] ∧
    cstr (trim_string ['A', 'B', 'C', 'D', 'E', 'F', 'G', 'H'] 8)
      = ['A', 'B', 'C', 'D', 'E', 'F', 'G', 'H'] ∧
    main_sta 8 ['A', 'B', 'C', 'D', 'E', 'F', 'G', 'H'] = ['A', 'B', 'C', 'D', 'E', 'F', 'G'] ∧
    NUL ∉ main_sta 8 ['A', 'B', 'C', 'D', 'E', 'F', 'G', 'H'] := by
  decide

/-! ## The reported extrema -/

theorem seis_min_step (v mn : ℚ) : (if v < mn then v else mn) = min mn v := by
  rcases lt_or_le v mn with h | h
  · rw [if_pos h, min_eq_right h.le]
  · rw [if_neg (not_lt.2 h), min_eq_left h]

theorem seis_max_step (v mn mx : ℚ) (hle : mn ≤ mx) :
    (if v < mn then mx else if v > mx then v else mx) = max mx v := by
  rcases lt_or_le v mn with h | h
  · rw [if_pos h, max_eq_left (le_trans h.le hle)]
  · rw [if_neg (not_lt.2 h)]
    rcases lt_or_le mx v with h1 | h1
    · rw [if_pos h1, max_eq_right h1.le]
    · rw [if_neg (not_lt.2 h1), max_eq_left h1]

/-- The `for` loop folds the non-gap samples it passes into `seis_min` and
`seis_max`, as long as `seis_min <= seis_max`. -/
theorem forLoop_extrema (fmul : ℚ → ℚ → ℚ) (MaxSample : Int) (Multiplier GapValue starttime delta : ℚ)
    (seis : List ℚ) :
    ∀ (i : Nat) (mn mx : ℚ) (h : TRACE2_HEADER) (ld : List Int), mn ≤ mx →
    ∃ passed, seis = passed ++
        (forLoop fmul MaxSample Multiplier GapValue starttime delta seis i mn mx h ld).seis_ptr ∧
      (forLoop fmul MaxSample Multiplier GapValue starttime delta seis i mn mx h ld).seis_min
        = (passed.filter (fun v => decide (v ≠ GapValue))).foldl min mn ∧
      (forLoop fmul MaxSample Multiplier GapValue starttime delta seis i mn mx h ld).seis_max
        = (passed.filter (fun v => decide (v ≠ GapValue))).foldl max mx ∧
      (forLoop fmul MaxSample Multiplier GapValue starttime delta seis i mn mx h ld).seis_min
        ≤ (forLoop fmul MaxSample Multiplier GapValue starttime delta seis i mn mx h ld).seis_max := by
  induction seis with
  | nil =>
    intro i mn mx h ld hle
    exact ⟨[], by simp [forLoop], by simp [forLoop], by simp [forLoop], by simpa [forLoop] using hle⟩
  | cons v rest ih =>
    intro i mn mx h ld hle
    by_cases hlt : (h.nsamp : Int) < MaxSample
    · by_cases hv : v = GapValue
      · subst hv
        by_cases hn : h.nsamp = 0
        · rw [forLoop_skip starttime rest i mn mx h ld hlt hn]
          obtain ⟨passed, h1, h2, h3, h4⟩ := ih (i + 1) mn mx h ld hle
          refine ⟨v :: passed, ?_, ?_, ?_, h4⟩
          · rw [List.cons_append, ← h1]
          · rw [h2]; simp
          · rw [h3]; simp
        · rw [forLoop_break starttime rest i mn mx h ld hlt hn]
          exact ⟨[], rfl, rfl, rfl, hle⟩
      · rw [forLoop_take starttime v rest i mn mx h ld hlt hv, seis_min_step,
          seis_max_step v mn mx hle]
        obtain ⟨passed, h1, h2, h3, h4⟩ := ih (i + 1) (min mn v) (max mx v)
          { h with nsamp := h.nsamp + 1,
                   starttime := if h.nsamp = 0 then starttime + delta * i else h.starttime }
          (ld ++ [int32_cast (fmul Multiplier v)])
          (le_trans (min_le_left _ _) (le_trans hle (le_max_left _ _)))
        refine ⟨v :: passed, ?_, ?_, ?_, h4⟩
        · rw [List.cons_append, ← h1]
        · rw [h2]; simp [hv]
        · rw [h3]; simp [hv]
    · rw [forLoop_full starttime v rest i mn mx h ld hlt]
      exact ⟨[], rfl, rfl, rfl, hle⟩

/-- When the `while` loop is left, `seis_min` and `seis_max` are their values
at the start folded with the non-gap samples. -/
theorem whileLoop_extrema (fmul : ℚ → ℚ → ℚ) (MaxSample : Int) (Multiplier GapValue delta : ℚ) :
    ∀ (fuel : Nat) (s s1 : MainState),
      whileLoop fmul MaxSample Multiplier GapValue delta fuel s = some s1 →
      s.seis_min ≤ s.seis_max →
      s1.seis_min = (s.seis_ptr.filter (fun v => decide (v ≠ GapValue))).foldl min s.seis_min ∧
      s1.seis_max = (s.seis_ptr.filter (fun v => decide (v ≠ GapValue))).foldl max s.seis_max := by
  intro fuel
  induction fuel with
  | zero =>
    intro s s1 h _
    by_cases hnil : s.seis_ptr = []
    · rw [whileLoop_nil 0 s hnil] at h
      cases h
      simp [hnil]
    · simp [whileLoop, hnil] at h
  | succ fuel ih =>
    intro s s1 h hle
    by_cases hnil : s.seis_ptr = []
    · rw [whileLoop_nil _ s hnil] at h
      cases h
      simp [hnil]
    · rw [whileLoop_cons fuel s hnil] at h
      obtain ⟨passed, h1, h2, h3, h4⟩ := forLoop_extrema fmul MaxSample Multiplier GapValue
        s.starttime delta s.seis_ptr 0 s.seis_min s.seis_max
        { s.trh2 with pinno := 0, nsamp := 0 } [] hle
      have hb1 : (whileBody fmul MaxSample Multiplier GapValue delta s).seis_ptr
          = (forLoop fmul MaxSample Multiplier GapValue s.starttime delta s.seis_ptr 0 s.seis_min
              s.seis_max { s.trh2 with pinno := 0, nsamp := 0 } []).seis_ptr := rfl
      have hb2 : (whileBody fmul MaxSample Multiplier GapValue delta s).seis_min
          = (forLoop fmul MaxSample Multiplier GapValue s.starttime delta s.seis_ptr 0 s.seis_min
              s.seis_max { s.trh2 with pinno := 0, nsamp := 0 } []).seis_min := rfl
      have hb3 : (whileBody fmul MaxSample Multiplier GapValue delta s).seis_max
          = (forLoop fmul MaxSample Multiplier GapValue s.starttime delta s.seis_ptr 0 s.seis_min
              s.seis_max { s.trh2 with pinno := 0, nsamp := 0 } []).seis_max := rfl
      obtain ⟨e1, e2⟩ := ih _ s1 h (by rw [hb2, hb3]; exact h4)
      rw [hb1, hb2, h2] at e1
      rw [hb1, hb3, h3] at e2
      constructor
      · rw [e1]
        conv_rhs => rw [h1]
        rw [List.filter_append, List.foldl_append]
      · rw [e2]
        conv_rhs => rw [h1]
        rw [List.filter_append, List.foldl_append]

/-- C15 (the code departs from the claim): the minimum and the maximum that
`main` reports are those of the non-gap samples together with the value 0.0
that lines 78-79 give `seis_min` and `seis_max`; the minimum reported for a
source whose samples are all positive is 0, not the minimum of the samples. -/
theorem C15_reported_extrema (fmul : ℚ → ℚ → ℚ) (MaxSample : Int) (Multiplier GapValue delta : ℚ)
    (tmpl : TRACE2_HEADER) (starttime : ℚ) (seis : List ℚ) (fuel : Nat)
    (hM : 1 ≤ MaxSample) (hfuel : seis.length ≤ fuel) :
    ∃ s1, whileLoop fmul MaxSample Multiplier GapValue delta fuel (initState tmpl starttime seis)
        = some s1 ∧
      s1.seis_min = (seis.filter (fun v => decide (v ≠ GapValue))).foldl min 0 ∧
      s1.seis_max = (seis.filter (fun v => decide (v ≠ GapValue))).foldl max 0 := by
  obtain ⟨s1, pk, e1, -, -, -⟩ := @whileLoop_chunked fmul MaxSample Multiplier GapValue delta
    tmpl hM fuel (initState tmpl starttime seis) hfuel (fun _ _ _ => rfl)
  obtain ⟨h1, h2⟩ := whileLoop_extrema fmul MaxSample Multiplier GapValue delta fuel _ s1 e1
    (by simp [initState])
  exact ⟨s1, e1, h1, h2⟩

/-- C15 at the samples 1, 2, 3: the minimum reported is 0 and the maximum 3,
whereas the minimum of the samples is 1. -/
theorem C15_reported_extrema_witness :
    ∃ s1, whileLoop exampleMul 100 1 (-12345) (1 / 100) 3 (initState exampleHeader 1000 [1, 2, 3])
        = some s1 ∧ s1.seis_min = 0 ∧ s1.seis_max = 3 := by
  obtain ⟨s1, h1, h2, h3⟩ := C15_reported_extrema exampleMul 100 1 (-12345) (1 / 100) exampleHeader 1000
    [1, 2, 3] 3 (by decide) (by decide)
  refine ⟨s1, h1, ?_, ?_⟩
  · rw [h2]; norm_num [List.filter, List.foldl]
  · rw [h3]; norm_num [List.filter, List.foldl]

/-! ## The encoding of a sample -/

/-- The conversion to `int32_t` of a value within the `int32_t` range discards
the fractional part: the floor of a value `>= 0`, the ceiling of a value `< 0`. -/
theorem int32_cast_in_range (x : ℚ) (hlo : -2147483648 ≤ x) (hhi : x ≤ 2147483647) :
    int32_cast x = (if 0 ≤ x then ⌊x⌋ else ⌈x⌉) ∧
    -2147483648 ≤ int32_cast x ∧ int32_cast x ≤ 2147483647 := by
  have hden : (0 : Int) ≤ (x.den : Int) := Int.ofNat_nonneg _
  have htr : Int.tdiv x.num x.den = (if 0 ≤ x then ⌊x⌋ else ⌈x⌉) := by
    by_cases hx : 0 ≤ x
    · rw [if_pos hx, Rat.floor_def]
      exact Int.tdiv_eq_ediv (Rat.num_nonneg.2 hx) hden
    · rw [if_neg hx]
      have hneg : 0 ≤ (-x).num := Rat.num_nonneg.2 (by linarith [not_le.1 hx])
      have e : x.num = -(-x).num := by simp
      have hc : ⌈x⌉ = -⌊-x⌋ := by rw [Int.floor_neg, neg_neg]
      rw [e, Int.neg_tdiv, hc, Rat.floor_def, Rat.neg_den, Int.tdiv_eq_ediv hneg hden]
  have hge : -2147483648 ≤ (if 0 ≤ x then ⌊x⌋ else ⌈x⌉) := by
    split
    · rename_i hx
      have : (0 : Int) ≤ ⌊x⌋ := Int.floor_nonneg.2 hx
      omega
    · have h1 : ((-2147483648 : Int) : ℚ) ≤ x := by push_cast; exact hlo
      have h2 : ((-2147483648 : Int) : ℚ) ≤ ((⌈x⌉ : Int) : ℚ) := le_trans h1 (Int.le_ceil x)
      exact_mod_cast h2
  have hle : (if 0 ≤ x then ⌊x⌋ else ⌈x⌉) ≤ 2147483647 := by
    split
    · have h1 : x ≤ ((2147483647 : Int) : ℚ) := by push_cast; exact hhi
      have h2 : ((⌊x⌋ : Int) : ℚ) ≤ ((2147483647 : Int) : ℚ) := le_trans (Int.floor_le x) h1
      exact_mod_cast h2
    · rename_i hx
      have : ⌈x⌉ ≤ 0 := Int.ceil_le.2 (by push_cast; linarith [not_le.1 hx])
      omega
  have hval : int32_cast x = (if 0 ≤ x then ⌊x⌋ else ⌈x⌉) := by
    unfold int32_cast
    rw [htr, if_pos ⟨hge, hle⟩]
  rw [hval]
  exact ⟨rfl, hge, hle⟩

/-- C18: the payload of the packets written holds, for each non-gap sample `v`
in source order, the conversion to `int32_t` of the `float` product
`Multiplier * v` of line 196; and for every multiplier `m` and sample `v` whose
product, as line 196 computes it, lies within the `int32_t` range, that value
is the product truncated toward zero: its floor when it is `>= 0`, its ceiling
when it is `< 0`, a value within the `int32_t` range. -/
theorem C18_truncation_toward_zero (fmul : ℚ → ℚ → ℚ) (MaxSample : Int)
    (Multiplier GapValue delta : ℚ) (tmpl : TRACE2_HEADER) (starttime : ℚ) (seis : List ℚ)
    (fuel : Nat) (hM : 1 ≤ MaxSample) (hfuel : seis.length ≤ fuel) :
    (∃ pk, packets fmul MaxSample Multiplier GapValue delta tmpl starttime seis fuel = some pk ∧
      (pk.map (fun p => p.data)).flatten
        = (seis.filter (fun v => decide (v ≠ GapValue))).map
            (fun v => int32_cast (fmul Multiplier v))) ∧
    (∀ m v : ℚ, -2147483648 ≤ fmul m v → fmul m v ≤ 2147483647 →
      int32_cast (fmul m v) = (if 0 ≤ fmul m v then ⌊fmul m v⌋ else ⌈fmul m v⌉) ∧
      -2147483648 ≤ int32_cast (fmul m v) ∧ int32_cast (fmul m v) ≤ 2147483647) := by
  obtain ⟨pk, h1, h2⟩ := @packets_chunked fmul MaxSample Multiplier GapValue delta
    tmpl starttime seis fuel hM hfuel
  exact ⟨⟨pk, h1, chunked_data h2⟩, fun m v hlo hhi => int32_cast_in_range (fmul m v) hlo hhi⟩

/-- Witness of C18: multiplier 1.0 and the one sample -2.7, whose product with
1.0 is -2.7 itself: the payload written is -2. -/
theorem C18_truncation_toward_zero_witness :
    ((∃ pk, packets exampleMul 3 1 (-12345) (1 / 100) exampleHeader 1000 [-27 / 10] 1 = some pk ∧
      (pk.map (fun p => p.data)).flatten
        = (([-27 / 10] : List ℚ).filter (fun v => decide (v ≠ -12345))).map
            (fun v => int32_cast (exampleMul 1 v))) ∧
    (∀ m v : ℚ, -2147483648 ≤ exampleMul m v → exampleMul m v ≤ 2147483647 →
      int32_cast (exampleMul m v)
        = (if 0 ≤ exampleMul m v then ⌊exampleMul m v⌋ else ⌈exampleMul m v⌉) ∧
      -2147483648 ≤ int32_cast (exampleMul m v) ∧ int32_cast (exampleMul m v) ≤ 2147483647)) ∧
    (([-27 / 10] : List ℚ).filter (fun v => decide (v ≠ -12345))).map
        (fun v => int32_cast (exampleMul 1 v)) = [-2] :=
  ⟨C18_truncation_toward_zero exampleMul 3 1 (-12345) (1 / 100) exampleHeader 1000 [-27 / 10] 1
    (by decide) (by decide), by
    have hne : ((-27 / 10 : ℚ) ≠ -12345) := by norm_num
    have e : exampleMul 1 (-27 / 10) = Rat.divInt (-27) 10 := by
      unfold exampleMul
      norm_num [Rat.divInt_eq_div]
    have h1 : (Rat.divInt (-27) 10).num = -27 := by decide
    have h2 : (Rat.divInt (-27) 10).den = 10 := by decide
    have hv : int32_cast (exampleMul 1 (-27 / 10)) = -2 := by
      rw [e]
      unfold int32_cast
      rw [h1, h2]
      decide
    simp only [List.filter, hne, ne_eq, not_false_eq_true, decide_True, List.map_cons,
      List.map_nil, hv]⟩

/-! ## The command line -/

/-- C16: when the option loop of `proc_argv` is left with an input file name
(the options are valid and a file is named), `proc_argv` returns non-zero, and
`main` returns -1 with nothing loaded or written, if and only if
`MaxSample < 1` or `MaxSample > 1008`; every `MaxSample` accepted satisfies
`MaxSample * 4 + 64 <= 4096`, and the default `DEF_MAX_SAMPS` = 100 is
accepted. -/
theorem C16_max_sample_check (E : Extern) (argv : List String) (g : Globals) (f : String)
    (hloop : argLoop E.atoi E.atof argv.tail (Globals.init E.SACUNDEF) = some (ArgLoop.left g))
    (hin : g.InputFile = some f) :
    ∃ status, proc_argv E.atoi E.atof argv (Globals.init E.SACUNDEF)
        = some (ProcArgv.returned status g) ∧
      (status ≠ 0 ↔ g.MaxSample < 1 ∨ g.MaxSample > 1008) ∧
      (status ≠ 0 → ∀ fuel, main E argv fuel = some ⟨-1, []⟩) ∧
      (status = 0 → g.MaxSample * 4 + 64 ≤ 4096) ∧
      (g.MaxSample = DEF_MAX_SAMPS → status = 0) := by
  have hp : proc_argv E.atoi E.atof argv (Globals.init E.SACUNDEF)
      = some (ProcArgv.returned (proc_argv_check g.InputFile g.MaxSample) g) := by
    unfold proc_argv
    rw [hloop]
  have h3 : (((MAX_TRACEBUF_SIZ - sizeof_TRACE2_HEADER) / 4 : Nat) : Int) = 1008 := by decide
  have hiff : proc_argv_check g.InputFile g.MaxSample ≠ 0
      ↔ g.MaxSample < 1 ∨ g.MaxSample > 1008 := by
    unfold proc_argv_check
    rw [hin, h3]
    simp only [reduceCtorEq, if_false]
    constructor
    · intro h
      by_contra hc
      apply h
      rw [if_neg (by omega), if_neg (by omega)]
    · rintro (h | h)
      · rw [if_pos h]; decide
      · rw [if_neg (by omega), if_pos h]; decide
  refine ⟨_, hp, hiff, ?_, ?_, ?_⟩
  · intro hne fuel
    unfold main
    rw [hp]
    simp only [hne, ne_eq, not_false_eq_true, if_true]
  · intro h0
    have := hiff.not.1 (by simp [h0])
    omega
  · intro hd
    by_contra hne
    have := hiff.1 hne
    rw [hd] at this
    have hd2 : DEF_MAX_SAMPS = 100 := rfl
    rw [hd2] at this
    omega

/-- Witness of C16: the command line `sac2tnk in.sac`, which leaves `MaxSample`
at its default. -/
theorem C16_max_sample_check_witness :
    ∃ status, proc_argv exampleExtern.atoi exampleExtern.atof ["sac2tnk", "in.sac"]
          (Globals.init exampleExtern.SACUNDEF)
        = some (ProcArgv.returned status
            { Globals.init exampleExtern.SACUNDEF with InputFile := some "in.sac" }) ∧
      (status ≠ 0 ↔ ({ Globals.init exampleExtern.SACUNDEF with
          InputFile := some "in.sac" } : Globals).MaxSample < 1
        ∨ ({ Globals.init exampleExtern.SACUNDEF with
          InputFile := some "in.sac" } : Globals).MaxSample > 1008) ∧
      (status ≠ 0 → ∀ fuel, main exampleExtern ["sac2tnk", "in.sac"] fuel = some ⟨-1, []⟩) ∧
      (status = 0 → ({ Globals.init exampleExtern.SACUNDEF with
          InputFile := some "in.sac" } : Globals).MaxSample * 4 + 64 ≤ 4096) ∧
      (({ Globals.init exampleExtern.SACUNDEF with
          InputFile := some "in.sac" } : Globals).MaxSample = DEF_MAX_SAMPS → status = 0) :=
  C16_max_sample_check exampleExtern ["sac2tnk", "in.sac"]
    { Globals.init exampleExtern.SACUNDEF with InputFile := some "in.sac" } "in.sac"
    (by decide) rfl

/-- `main` after an accepted command line: with a file that loads, a period of
at least a millisecond and `MaxSample >= 1`, it returns 0 and the packets it
has written are those of the loop run with the period and the header of lines
120-159; they are the greedy split of the samples of the file. -/
theorem main_process_spec (E : Extern) (g : Globals) (fuel : Nat) (f : String) (sh : SAChead)
    (seis : List ℚ) (hin : g.InputFile = some f) (hload : E.sac_file_load f = some (sh, seis))
    (hdelta : ¬ sh.delta < 1 / 1000) (hM : 1 ≤ g.MaxSample) (hfuel : seis.length ≤ fuel) :
    ∃ pk, main_process E g fuel = some ⟨0, pk⟩ ∧
      packets E.fmul g.MaxSample g.Multiplier g.GapValue (main_delta E.ddiv g.NewSampRate sh.delta)
        (main_header E.ddiv E.K_LEN E.SACSTRUNDEF g
          (E.sac_scnl_modify sh g.NewSta g.NewChan g.NewNet g.NewLoc) sh.delta)
        (E.sac_reftime_fetch sh + sh.b) seis fuel = some pk ∧
      Chunked E.fmul g.MaxSample g.Multiplier g.GapValue (main_delta E.ddiv g.NewSampRate sh.delta)
        (main_header E.ddiv E.K_LEN E.SACSTRUNDEF g
          (E.sac_scnl_modify sh g.NewSta g.NewChan g.NewNet g.NewLoc) sh.delta)
        (E.sac_reftime_fetch sh + sh.b) seis pk := by
  obtain ⟨pk, h1, h2⟩ := @packets_chunked E.fmul g.MaxSample g.Multiplier g.GapValue
    (main_delta E.ddiv g.NewSampRate sh.delta)
    (main_header E.ddiv E.K_LEN E.SACSTRUNDEF g
      (E.sac_scnl_modify sh g.NewSta g.NewChan g.NewNet g.NewLoc) sh.delta)
    (E.sac_reftime_fetch sh + sh.b) seis fuel hM hfuel
  refine ⟨pk, ?_, h1, h2⟩
  unfold main_process
  simp only [hin, hload, hdelta, if_false, h1, Option.map_some']

/-- `main` when `proc_argv` returns 0. -/
theorem main_of_accepted (E : Extern) (argv : List String) (g : Globals) (fuel : Nat)
    (hp : proc_argv E.atoi E.atof argv (Globals.init E.SACUNDEF)
      = some (ProcArgv.returned 0 g)) :
    main E argv fuel = main_process E g fuel := by
  unfold main
  rw [hp]
  simp

/-- The header of every packet of a split is the template with the count and
the two times of the packet. -/
theorem chunked_header {fmul : ℚ → ℚ → ℚ} {MaxSample : Int} {Multiplier GapValue delta : ℚ} {tmpl : TRACE2_HEADER}
    {t : ℚ} {seis : List ℚ} {pk : List TracePacket}
    (hc : Chunked fmul MaxSample Multiplier GapValue delta tmpl t seis pk) :
    ∀ p ∈ pk, p.trh2 = stamp tmpl p.trh2.nsamp p.trh2.starttime p.trh2.endtime := by
  induction hc with
  | done t => intro p hp; simp at hp
  | gap t g rest pk _ _ ih => exact ih
  | run t seis run rest pk _ _ _ _ _ _ ih =>
    intro p hp
    rcases List.mem_cons.1 hp with rfl | hp2
    · rfl
    · exact ih p hp2

/-- The option loop does not look at the values that `atof` gives: with
another `atof`, and from file-scope variables that differ in `NewSampRate`,
`Multiplier` and `GapValue` only, the loop ends in the same way (undefined,
exited, returned or left), with the same status and the same other variables. -/
theorem argLoop_dropFloats (atoi : String → Int) (atof atof1 : String → ℚ) :
    ∀ (n : Nat) (l : List String), l.length = n → ∀ g g1 : Globals,
      g.dropFloats = g1.dropFloats →
      (argLoop atoi atof l g).map ArgLoop.dropFloats
        = (argLoop atoi atof1 l g1).map ArgLoop.dropFloats := by
  intro n
  induction n using Nat.strong_induction_on with
  | _ n ih =>
    intro l hl g g1 hg
    match l, hl with
    | [], _ =>
      rw [argLoop.eq_def atoi atof, argLoop.eq_def atoi atof1]
      exact congrArg (fun x : Globals => some (ArgLoop.left x)) hg
    | [a], hl =>
      have h0 := ih 0 (by simp at hl; omega) [] rfl
      rw [argLoop.eq_def atoi atof, argLoop.eq_def atoi atof1]
      dsimp only []
      by_cases c0 : a = "-v"
      · simp only [if_pos c0]
      simp only [if_neg c0]
      by_cases c1 : a = "-h"
      · simp only [if_pos c1]
      simp only [if_neg c1]
      by_cases c2 : a = "-N"
      · simp only [if_pos c2]
      simp only [if_neg c2]
      by_cases c3 : a = "-S"
      · simp only [if_pos c3]
      simp only [if_neg c3]
      by_cases c4 : a = "-C"
      · simp only [if_pos c4]
      simp only [if_neg c4]
      by_cases c5 : a = "-L"
      · simp only [if_pos c5]
      simp only [if_neg c5]
      by_cases c6 : a = "-s"
      · simp only [if_pos c6]
      simp only [if_neg c6]
      by_cases c7 : a = "-c"
      · simp only [if_pos c7]
        exact h0 _ _ (congrArg (fun x : Globals => { x with SeisanChanFix := true }) hg)
      simp only [if_neg c7]
      by_cases c8 : a = "-n"
      · simp only [if_pos c8]
      simp only [if_neg c8]
      by_cases c9 : a = "-m"
      · simp only [if_pos c9]
      simp only [if_neg c9]
      by_cases c10 : a = "-g"
      · simp only [if_pos c10]
      simp only [if_neg c10]
      by_cases c11 : a = "-a"
      · simp only [if_pos c11]
        exact h0 _ _ (congrArg (fun x : Globals => { x with AppendOutput := true }) hg)
      simp only [if_neg c11]
      exact congrArg (fun x : Globals =>
        some (ArgLoop.left { x with InputFile := some a, OutputFile := none })) hg
    | a :: v :: rest1, hl =>
      have h1 := ih rest1.length (by simp at hl; omega) rest1 rfl
      have h2 := ih (v :: rest1).length (by simp at hl ⊢; omega) (v :: rest1) rfl
      rw [argLoop.eq_def atoi atof, argLoop.eq_def atoi atof1]
      dsimp only []
      by_cases c0 : a = "-v"
      · simp only [if_pos c0]
      simp only [if_neg c0]
      by_cases c1 : a = "-h"
      · simp only [if_pos c1]
      simp only [if_neg c1]
      by_cases c2 : a = "-N"
      · simp only [if_pos c2]
        by_cases hv : v.utf8ByteSize > MAX_SCNL_CODE_LEN
        · simp only [if_pos hv]
          exact congrArg (fun x : Globals => some (ArgLoop.returned (-1) x)) hg
        · simp only [if_neg hv]
          exact h1 _ _ (congrArg (fun x : Globals => { x with NewNet := some v }) hg)
      simp only [if_neg c2]
      by_cases c3 : a = "-S"
      · simp only [if_pos c3]
        by_cases hv : v.utf8ByteSize > MAX_SCNL_CODE_LEN
        · simp only [if_pos hv]
          exact congrArg (fun x : Globals => some (ArgLoop.returned (-1) x)) hg
        · simp only [if_neg hv]
          exact h1 _ _ (congrArg (fun x : Globals => { x with NewSta := some v }) hg)
      simp only [if_neg c3]
      by_cases c4 : a = "-C"
      · simp only [if_pos c4]
        by_cases hv : v.utf8ByteSize > MAX_SCNL_CODE_LEN
        · simp only [if_pos hv]
          exact congrArg (fun x : Globals => some (ArgLoop.returned (-1) x)) hg
        · simp only [if_neg hv]
          exact h1 _ _ (congrArg (fun x : Globals => { x with NewChan := some v }) hg)
      simp only [if_neg c4]
      by_cases c5 : a = "-L"
      · simp only [if_pos c5]
        by_cases hv : v.utf8ByteSize > MAX_SCNL_CODE_LEN
        · simp only [if_pos hv]
          exact congrArg (fun x : Globals => some (ArgLoop.returned (-1) x)) hg
        · simp only [if_neg hv]
          exact h1 _ _ (congrArg (fun x : Globals => { x with NewLoc := some v }) hg)
      simp only [if_neg c5]
      by_cases c6 : a = "-s"
      · simp only [if_pos c6]
        exact h1 _ _ hg
      simp only [if_neg c6]
      by_cases c7 : a = "-c"
      · simp only [if_pos c7]
        exact h2 _ _ (congrArg (fun x : Globals => { x with SeisanChanFix := true }) hg)
      simp only [if_neg c7]
      by_cases c8 : a = "-n"
      · simp only [if_pos c8]
        exact h1 _ _ (congrArg (fun x : Globals => { x with MaxSample := atoi v }) hg)
      simp only [if_neg c8]
      by_cases c9 : a = "-m"
      · simp only [if_pos c9]
        exact h1 _ _ hg
      simp only [if_neg c9]
      by_cases c10 : a = "-g"
      · simp only [if_pos c10]
        exact h1 _ _ hg
      simp only [if_neg c10]
      by_cases c11 : a = "-a"
      · simp only [if_pos c11]
        exact h2 _ _ (congrArg (fun x : Globals => { x with AppendOutput := true }) hg)
      simp only [if_neg c11]
      cases rest1 with
      | nil =>
        exact congrArg (fun x : Globals =>
          some (ArgLoop.left { x with InputFile := some a, OutputFile := some v })) hg
      | cons w rest2 =>
        exact congrArg (fun x : Globals => some (ArgLoop.returned (-1) x)) hg

/-- `proc_argv` does not look at the values that `atof` gives. -/
theorem proc_argv_dropFloats (atoi : String → Int) (atof atof1 : String → ℚ)
    (argv : List String) (g : Globals) :
    (proc_argv atoi atof1 argv g).map ProcArgv.dropFloats
      = (proc_argv atoi atof argv g).map ProcArgv.dropFloats := by
  have h := argLoop_dropFloats atoi atof1 atof argv.tail.length argv.tail rfl g g rfl
  unfold proc_argv
  cases h1 : argLoop atoi atof1 argv.tail g with
  | none =>
    rw [h1] at h
    cases h2 : argLoop atoi atof argv.tail g with
    | none => rfl
    | some r2 => rw [h2] at h; simp at h
  | some r1 =>
    rw [h1] at h
    cases h2 : argLoop atoi atof argv.tail g with
    | none => rw [h2] at h; simp at h
    | some r2 =>
      rw [h2] at h
      simp only [Option.map_some', Option.some.injEq] at h
      cases r1 with
      | exited s1 =>
        cases r2 with
        | exited s2 => simpa [ArgLoop.dropFloats, ProcArgv.dropFloats] using h
        | returned s2 g2 => simp [ArgLoop.dropFloats] at h
        | left g2 => simp [ArgLoop.dropFloats] at h
      | returned s1 g1 =>
        cases r2 with
        | exited s2 => simp [ArgLoop.dropFloats] at h
        | returned s2 g2 => simpa [ArgLoop.dropFloats, ProcArgv.dropFloats] using h
        | left g2 => simp [ArgLoop.dropFloats] at h
      | left g1 =>
        cases r2 with
        | exited s2 => simp [ArgLoop.dropFloats] at h
        | returned s2 g2 => simp [ArgLoop.dropFloats] at h
        | left g2 =>
          simp only [ArgLoop.dropFloats, ArgLoop.left.injEq] at h
          have e1 := congrArg Globals.InputFile h
          have e2 := congrArg Globals.MaxSample h
          change g1.InputFile = g2.InputFile at e1
          change g1.MaxSample = g2.MaxSample at e2
          simp only [Option.map_some', ProcArgv.dropFloats, e1, e2, h]

/-- C17 fails as stated: the command line `sac2tnk -s -5 in.sac`, whose sample
rate override is negative, is accepted: `proc_argv` returns 0 and `main`
returns 0 after it has written packets with the five samples of the file. -/
theorem C17_counterexample :
    exampleExtern.atof "-5" = -5 ∧
    proc_argv exampleExtern.atoi exampleExtern.atof ["sac2tnk", "-s", "-5", "in.sac"]
        (Globals.init exampleExtern.SACUNDEF)
      = some (ProcArgv.returned 0
          { Globals.init exampleExtern.SACUNDEF with
            InputFile := some "in.sac", NewSampRate := -5 }) ∧
    ∃ pk, main exampleExtern ["sac2tnk", "-s", "-5", "in.sac"] 6 = some ⟨0, pk⟩ ∧
      (pk.map (fun p => p.trh2.nsamp)).sum = 5 := by
  have hp : proc_argv exampleExtern.atoi exampleExtern.atof ["sac2tnk", "-s", "-5", "in.sac"]
        (Globals.init exampleExtern.SACUNDEF)
      = some (ProcArgv.returned 0
          { Globals.init exampleExtern.SACUNDEF with
            InputFile := some "in.sac", NewSampRate := -5 }) := by decide
  refine ⟨by decide, hp, ?_⟩
  rw [main_of_accepted exampleExtern _ _ 6 hp]
  obtain ⟨pk, h1, -, h2⟩ := main_process_spec exampleExtern
    { Globals.init exampleExtern.SACUNDEF with InputFile := some "in.sac", NewSampRate := -5 }
    6 "in.sac" _ [1, 2, 3, -12345, 4, 5] rfl rfl (by norm_num) (by decide) (by decide)
  refine ⟨pk, h1, ?_⟩
  rw [chunked_total h2]
  decide

/-- C17, amended: a sample rate override is never a configuration error.
Wherever `-s v` stands on the command line and whatever was read before it, the
option loop stores `atof(v)` in `NewSampRate` and goes on with the next
argument; how `proc_argv` ends (undefined, exited or returned, the status, and
every variable but `NewSampRate`, `Multiplier` and `GapValue`) is the same for
every `atof`, that is for all values of the options `-s`, `-m` and `-g`.  When
an accepted command line leaves an override that is not `> 0`, with a file that
loads, a period of at least a millisecond and fuel for the loop, `main` returns
0 and writes the packets it writes with `NewSampRate` at its initial value 0
(no override): those of the loop run with the period `sh.delta` of the file,
the `samprate` of each being the `double` quotient `1.0 / sh.delta` and their
counts adding up to the number of samples that differ from the gap value. -/
theorem C17_override_not_validated (E : Extern) :
    (∀ (v : String) (rest : List String) (g : Globals),
      argLoop E.atoi E.atof ("-s" :: v :: rest) g
        = argLoop E.atoi E.atof rest { g with NewSampRate := E.atof v }) ∧
    (∀ (atof1 : String → ℚ) (argv : List String) (g : Globals),
      (proc_argv E.atoi atof1 argv g).map ProcArgv.dropFloats
        = (proc_argv E.atoi E.atof argv g).map ProcArgv.dropFloats) ∧
    (∀ (argv : List String) (g : Globals) (fuel : Nat) (f : String) (sh : SAChead)
      (seis : List ℚ),
      proc_argv E.atoi E.atof argv (Globals.init E.SACUNDEF) = some (ProcArgv.returned 0 g) →
      ¬ g.NewSampRate > 0 → g.InputFile = some f → E.sac_file_load f = some (sh, seis) →
      ¬ sh.delta < 1 / 1000 → 1 ≤ g.MaxSample → seis.length ≤ fuel →
      ∃ pk, main E argv fuel = some ⟨0, pk⟩ ∧
        main_process E { g with NewSampRate := 0 } fuel = some ⟨0, pk⟩ ∧
        packets E.fmul g.MaxSample g.Multiplier g.GapValue sh.delta
          (main_header E.ddiv E.K_LEN E.SACSTRUNDEF g
            (E.sac_scnl_modify sh g.NewSta g.NewChan g.NewNet g.NewLoc) sh.delta)
          (E.sac_reftime_fetch sh + sh.b) seis fuel = some pk ∧
        (∀ p ∈ pk, p.trh2.samprate = E.ddiv 1 sh.delta) ∧
        (pk.map (fun p => p.trh2.nsamp)).sum
          = seis.countP (fun v => decide (v ≠ g.GapValue))) := by
  refine ⟨fun v rest g => ?_, fun atof1 argv g => proc_argv_dropFloats E.atoi E.atof atof1 argv g,
    fun argv g fuel f sh seis hp hr hin hload hdelta hM hfuel => ?_⟩
  · have hs : ("-s" : String) ≠ "-v" ∧ ("-s" : String) ≠ "-h" ∧ ("-s" : String) ≠ "-N"
        ∧ ("-s" : String) ≠ "-S" ∧ ("-s" : String) ≠ "-C" ∧ ("-s" : String) ≠ "-L" := by decide
    rw [argLoop.eq_def E.atoi E.atof]
    dsimp only []
    rw [if_neg hs.1, if_neg hs.2.1, if_neg hs.2.2.1, if_neg hs.2.2.2.1, if_neg hs.2.2.2.2.1,
      if_neg hs.2.2.2.2.2, if_pos rfl]
  · obtain ⟨pk, h1, h2, h3⟩ := main_process_spec E g fuel f sh seis hin hload hdelta hM hfuel
    have hd : main_delta E.ddiv g.NewSampRate sh.delta = sh.delta := by
      unfold main_delta; rw [if_neg hr]
    have hs : main_samprate E.ddiv g.NewSampRate sh.delta = E.ddiv 1 sh.delta := by
      unfold main_samprate; rw [if_neg hr]
    have h0 : ¬ (0 : ℚ) > 0 := lt_irrefl 0
    have he : main_process E { g with NewSampRate := 0 } fuel = main_process E g fuel := by
      simp only [main_process, main_header, main_delta, main_samprate, hr, h0, if_false]
    rw [hd] at h2
    refine ⟨pk, ?_, ?_, h2, fun p hp1 => ?_, chunked_total h3⟩
    · rw [main_of_accepted E argv g fuel hp]
      exact h1
    · rw [he]
      exact h1
    · rw [chunked_header h3 p hp1]
      exact hs

/-- Witness of C17: the override `-s -5` after the option `-c`, on the file
`in.sac` of six samples of which one is the gap value. -/
theorem C17_override_not_validated_witness :
    ∃ pk, main exampleExtern ["sac2tnk", "-c", "-s", "-5", "in.sac"] 6 = some ⟨0, pk⟩ ∧
      main_process exampleExtern
        { Globals.init (-12345) with
          InputFile := some "in.sac", SeisanChanFix := true, NewSampRate := 0 } 6 = some ⟨0, pk⟩ ∧
      packets exampleMul 100 1 (-12345) (1 / 100)
        (main_header exampleDiv 8 ['-', '1', '2', '3', '4', '5', ' ', ' ']
          { Globals.init (-12345) with
            InputFile := some "in.sac", SeisanChanFix := true, NewSampRate := -5 }
          ⟨1 / 100, 0, ['S', 'T', 'A', ' ', ' ', ' ', ' ', ' '],
            ['E', 'H', 'Z', ' ', ' ', ' ', ' ', ' '], ['T', 'W', ' ', ' ', ' ', ' ', ' ', ' '],
            ['-', '1', '2', '3', '4', '5', ' ', ' ']⟩ (1 / 100))
        (1000 + 0) [1, 2, 3, -12345, 4, 5] 6 = some pk ∧
      (∀ p ∈ pk, p.trh2.samprate = exampleDiv 1 (1 / 100)) ∧
      (pk.map (fun p => p.trh2.nsamp)).sum
        = ([1, 2, 3, -12345, 4, 5] : List ℚ).countP (fun v => decide (v ≠ -12345)) :=
  (C17_override_not_validated exampleExtern).2.2 ["sac2tnk", "-c", "-s", "-5", "in.sac"]
    { Globals.init (-12345) with
      InputFile := some "in.sac", SeisanChanFix := true, NewSampRate := -5 } 6 "in.sac"
    ⟨1 / 100, 0, ['S', 'T', 'A', ' ', ' ', ' ', ' ', ' '],
      ['E', 'H', 'Z', ' ', ' ', ' ', ' ', ' '], ['T', 'W', ' ', ' ', ' ', ' ', ' ', ' '],
      ['-', '1', '2', '3', '4', '5', ' ', ' ']⟩
    [1, 2, 3, -12345, 4, 5] (by decide) (by norm_num) rfl rfl (by norm_num) (by decide)
    (by decide)

/-! ## The sample rate, and the greedy split -/

/-- C19: after an accepted command line, for a file that loads with a period
of at least a millisecond, `main` returns 0 and the counts of the packets it
writes add up to the number of samples that differ from the gap value.  With a
sample rate override `r > 0` the packets are those of the loop run with the
period `1.0 / r` (the `double` quotient of line 152) and the `samprate` of
every packet is `r`; otherwise they are those of the loop run with the period
`sh.delta` of the file and the `samprate` of every packet is the `double`
quotient `1.0 / sh.delta` of line 156.  In both cases each packet carries a
window `s .. s+nsamp-1` of the source, starts `s` periods after the reference
start time and ends `nsamp - 1` periods later (the sums and products of the
times as exact rationals); all packets have the same `samprate`. -/
theorem C19_sample_rate (E : Extern) (g : Globals) (fuel : Nat) (f : String) (sh : SAChead)
    (seis : List ℚ) (hin : g.InputFile = some f) (hload : E.sac_file_load f = some (sh, seis))
    (hdelta : ¬ sh.delta < 1 / 1000) (hM : 1 ≤ g.MaxSample) (hfuel : seis.length ≤ fuel) :
    ∃ pk, main_process E g fuel = some ⟨0, pk⟩ ∧
      (pk.map (fun p => p.trh2.nsamp)).sum = seis.countP (fun v => decide (v ≠ g.GapValue)) ∧
      (0 < g.NewSampRate →
        packets E.fmul g.MaxSample g.Multiplier g.GapValue (E.ddiv 1 g.NewSampRate)
          (main_header E.ddiv E.K_LEN E.SACSTRUNDEF g
            (E.sac_scnl_modify sh g.NewSta g.NewChan g.NewNet g.NewLoc) sh.delta)
          (E.sac_reftime_fetch sh + sh.b) seis fuel = some pk ∧
        ∀ p ∈ pk, p.trh2.samprate = g.NewSampRate ∧
          ∃ s : Nat, s + p.trh2.nsamp ≤ seis.length ∧
            p.data = ((seis.drop s).take p.trh2.nsamp).map
              (fun v => int32_cast (E.fmul g.Multiplier v)) ∧
            p.trh2.starttime
              = E.sac_reftime_fetch sh + sh.b + (s : ℚ) * E.ddiv 1 g.NewSampRate ∧
            p.trh2.endtime
              = p.trh2.starttime + ((p.trh2.nsamp : ℚ) - 1) * E.ddiv 1 g.NewSampRate) ∧
      (¬ 0 < g.NewSampRate →
        packets E.fmul g.MaxSample g.Multiplier g.GapValue sh.delta
          (main_header E.ddiv E.K_LEN E.SACSTRUNDEF g
            (E.sac_scnl_modify sh g.NewSta g.NewChan g.NewNet g.NewLoc) sh.delta)
          (E.sac_reftime_fetch sh + sh.b) seis fuel = some pk ∧
        ∀ p ∈ pk, p.trh2.samprate = E.ddiv 1 sh.delta ∧
          ∃ s : Nat, s + p.trh2.nsamp ≤ seis.length ∧
            p.data = ((seis.drop s).take p.trh2.nsamp).map
              (fun v => int32_cast (E.fmul g.Multiplier v)) ∧
            p.trh2.starttime = E.sac_reftime_fetch sh + sh.b + (s : ℚ) * sh.delta ∧
            p.trh2.endtime = p.trh2.starttime + ((p.trh2.nsamp : ℚ) - 1) * sh.delta) ∧
      (∀ p ∈ pk, ∀ q ∈ pk, p.trh2.samprate = q.trh2.samprate) := by
  obtain ⟨pk, h1, hp, h2⟩ := main_process_spec E g fuel f sh seis hin hload hdelta hM hfuel
  have hrate : ∀ p ∈ pk, p.trh2.samprate = main_samprate E.ddiv g.NewSampRate sh.delta := by
    intro p hp
    rw [chunked_header h2 p hp]
    rfl
  refine ⟨pk, h1, chunked_total h2, fun hr => ?_, fun hr => ?_, fun p hp q hq => ?_⟩
  · have hd : main_delta E.ddiv g.NewSampRate sh.delta = E.ddiv 1 g.NewSampRate := by
      unfold main_delta; rw [if_pos hr]
    have hs : main_samprate E.ddiv g.NewSampRate sh.delta = g.NewSampRate := by
      unfold main_samprate; rw [if_pos hr]
    rw [hd] at hp h2
    refine ⟨hp, fun p hp1 => ⟨(hrate p hp1).trans hs, ?_⟩⟩
    obtain ⟨s, h3, -, h5, h6⟩ := chunked_window h2 p hp1
    exact ⟨s, h3, h5, h6, (chunked_each h2 p hp1).2.2.2⟩
  · have hd : main_delta E.ddiv g.NewSampRate sh.delta = sh.delta := by
      unfold main_delta; rw [if_neg hr]
    have hs : main_samprate E.ddiv g.NewSampRate sh.delta = E.ddiv 1 sh.delta := by
      unfold main_samprate; rw [if_neg hr]
    rw [hd] at hp h2
    refine ⟨hp, fun p hp1 => ⟨(hrate p hp1).trans hs, ?_⟩⟩
    obtain ⟨s, h3, -, h5, h6⟩ := chunked_window h2 p hp1
    exact ⟨s, h3, h5, h6, (chunked_each h2 p hp1).2.2.2⟩
  · rw [hrate p hp, hrate q hq]

/-- Witness of C19: the file `in.sac`, of six samples of which one is the gap
value, with the override `-s 50`. -/
theorem C19_sample_rate_witness :
    ∃ pk, main_process exampleExtern
        { Globals.init (-12345) with InputFile := some "in.sac", NewSampRate := 50 } 6
        = some ⟨0, pk⟩ ∧
      (pk.map (fun p => p.trh2.nsamp)).sum
        = ([1, 2, 3, -12345, 4, 5] : List ℚ).countP (fun v => decide (v ≠ -12345)) ∧
      ((0 : ℚ) < 50 →
        packets exampleMul 100 1 (-12345) (exampleDiv 1 50)
          (main_header exampleDiv 8 ['-', '1', '2', '3', '4', '5', ' ', ' ']
            { Globals.init (-12345) with InputFile := some "in.sac", NewSampRate := 50 }
            ⟨1 / 100, 0, ['S', 'T', 'A', ' ', ' ', ' ', ' ', ' '],
              ['E', 'H', 'Z', ' ', ' ', ' ', ' ', ' '],
              ['T', 'W', ' ', ' ', ' ', ' ', ' ', ' '],
              ['-', '1', '2', '3', '4', '5', ' ', ' ']⟩ (1 / 100))
          (1000 + 0) [1, 2, 3, -12345, 4, 5] 6 = some pk ∧
        ∀ p ∈ pk, p.trh2.samprate = 50 ∧
          ∃ s : Nat, s + p.trh2.nsamp ≤ ([1, 2, 3, -12345, 4, 5] : List ℚ).length ∧
            p.data = ((([1, 2, 3, -12345, 4, 5] : List ℚ).drop s).take p.trh2.nsamp).map
              (fun v => int32_cast (exampleMul 1 v)) ∧
            p.trh2.starttime = 1000 + 0 + (s : ℚ) * exampleDiv 1 50 ∧
            p.trh2.endtime = p.trh2.starttime + ((p.trh2.nsamp : ℚ) - 1) * exampleDiv 1 50) ∧
      (¬ (0 : ℚ) < 50 →
        packets exampleMul 100 1 (-12345) (1 / 100)
          (main_header exampleDiv 8 ['-', '1', '2', '3', '4', '5', ' ', ' ']
            { Globals.init (-12345) with InputFile := some "in.sac", NewSampRate := 50 }
            ⟨1 / 100, 0, ['S', 'T', 'A', ' ', ' ', ' ', ' ', ' '],
              ['E', 'H', 'Z', ' ', ' ', ' ', ' ', ' '],
              ['T', 'W', ' ', ' ', ' ', ' ', ' ', ' '],
              ['-', '1', '2', '3', '4', '5', ' ', ' ']⟩ (1 / 100))
          (1000 + 0) [1, 2, 3, -12345, 4, 5] 6 = some pk ∧
        ∀ p ∈ pk, p.trh2.samprate = exampleDiv 1 (1 / 100) ∧
          ∃ s : Nat, s + p.trh2.nsamp ≤ ([1, 2, 3, -12345, 4, 5] : List ℚ).length ∧
            p.data = ((([1, 2, 3, -12345, 4, 5] : List ℚ).drop s).take p.trh2.nsamp).map
              (fun v => int32_cast (exampleMul 1 v)) ∧
            p.trh2.starttime = 1000 + 0 + (s : ℚ) * (1 / 100) ∧
            p.trh2.endtime = p.trh2.starttime + ((p.trh2.nsamp : ℚ) - 1) * (1 / 100)) ∧
      (∀ p ∈ pk, ∀ q ∈ pk, p.trh2.samprate = q.trh2.samprate) :=
  C19_sample_rate exampleExtern
    { Globals.init (-12345) with InputFile := some "in.sac", NewSampRate := 50 } 6 "in.sac"
    ⟨1 / 100, 0, ['S', 'T', 'A', ' ', ' ', ' ', ' ', ' '],
      ['E', 'H', 'Z', ' ', ' ', ' ', ' ', ' '], ['T', 'W', ' ', ' ', ' ', ' ', ' ', ' '],
      ['-', '1', '2', '3', '4', '5', ' ', ' ']⟩
    [1, 2, 3, -12345, 4, 5] rfl rfl (by norm_num) (by decide) (by decide)

/-- Each packet of a split is shorter than `MaxSample` only when its window of
the source is followed by a gap value or by the end of the source. -/
theorem chunked_greedy {fmul : ℚ → ℚ → ℚ} {MaxSample : Int} {Multiplier GapValue delta : ℚ} {tmpl : TRACE2_HEADER}
    {t : ℚ} {seis : List ℚ} {pk : List TracePacket}
    (hc : Chunked fmul MaxSample Multiplier GapValue delta tmpl t seis pk) :
    ∀ p ∈ pk, ∃ s : Nat, s + p.trh2.nsamp ≤ seis.length ∧
      p.trh2.starttime = t + (s : ℚ) * delta ∧
      p.data = ((seis.drop s).take p.trh2.nsamp).map (fun v => int32_cast (fmul Multiplier v)) ∧
      ((p.trh2.nsamp : Int) < MaxSample →
        s + p.trh2.nsamp = seis.length ∨ seis[s + p.trh2.nsamp]? = some GapValue) := by
  induction hc with
  | done t => intro p hp; simp at hp
  | gap t g rest pk _ _ ih =>
    intro p hp
    obtain ⟨s, h1, h2, h3, h4⟩ := ih p hp
    refine ⟨s + 1, by simp only [List.length_cons]; omega, ?_, by simpa using h3, ?_⟩
    · rw [h2]; push_cast; ring
    · intro hlt
      rcases h4 hlt with h5 | h5
      · left; simp only [List.length_cons]; omega
      · right
        have e : s + 1 + p.trh2.nsamp = (s + p.trh2.nsamp) + 1 := by omega
        rw [e, List.getElem?_cons_succ]
        exact h5
  | run t seis run rest pk hs _ _ _ hstop _ ih =>
    subst hs
    intro p hp
    rcases List.mem_cons.1 hp with rfl | hp2
    · refine ⟨0, by simp [stamp], by simp [stamp], by simp [stamp], ?_⟩
      intro hlt
      rcases hstop hlt with h5 | h5
      · left; simp [stamp, h5]
      · right
        have e : (0 + run.length) = run.length := by omega
        simp only [stamp, e]
        rw [List.getElem?_append_right (le_refl _), Nat.sub_self, ← List.head?_eq_getElem?]
        exact h5
    · obtain ⟨s, h1, h2, h3, h4⟩ := ih p hp2
      have hd : (run ++ rest).drop (run.length + s) = rest.drop s := by
        rw [List.drop_append]
      refine ⟨run.length + s, by simp only [List.length_append]; omega, ?_, ?_, ?_⟩
      · rw [h2]; push_cast; ring
      · rw [hd]; exact h3
      · intro hlt
        rcases h4 hlt with h5 | h5
        · left; simp only [List.length_append]; omega
        · right
          rw [List.getElem?_append_right (by omega)]
          have e : run.length + s + p.trh2.nsamp - run.length = s + p.trh2.nsamp := by omega
          rw [e]
          exact h5

/-- Samples in the places of non-gap samples of another array with the same gap
positions are non-gap samples. -/
theorem mask_nongap {G : ℚ} : ∀ {a b : List ℚ},
    a.map (fun v => decide (v = G)) = b.map (fun v => decide (v = G)) →
    (∀ v ∈ b, v ≠ G) → ∀ v ∈ a, v ≠ G := by
  intro a
  induction a with
  | nil => intro b _ _ v hv; simp at hv
  | cons x xs ih =>
    intro b hm hb v hv
    cases b with
    | nil => simp at hm
    | cons y ys =>
      simp only [List.map_cons, List.cons.injEq, decide_eq_decide] at hm
      rcases List.mem_cons.1 hv with rfl | hv2
      · intro hx
        exact hb y (by simp) (hm.1.1 hx)
      · exact ih hm.2 (fun w hw => hb w (by simp [hw])) v hv2

/-- Arrays with the same gap positions end, or go on with a gap value, together. -/
theorem mask_stop {G : ℚ} {a b : List ℚ}
    (hm : a.map (fun v => decide (v = G)) = b.map (fun v => decide (v = G)))
    (hb : b = [] ∨ b.head? = some G) : a = [] ∨ a.head? = some G := by
  cases a with
  | nil => exact Or.inl rfl
  | cons x xs =>
    cases b with
    | nil => simp at hm
    | cons y ys =>
      simp only [List.map_cons, List.cons.injEq, decide_eq_decide] at hm
      rcases hb with hb | hb
      · simp at hb
      · simp only [List.head?_cons, Option.some.injEq] at hb
        right
        simp only [List.head?_cons, Option.some.injEq]
        exact hm.1.2 hb

/-- The headers of a split depend on the samples only through the positions of
the gap values: an array with the same gap positions, also with another
multiplier, has a split with the same headers. -/
theorem chunked_mask (Multiplier1 : ℚ) {fmul : ℚ → ℚ → ℚ} {MaxSample : Int} {Multiplier GapValue delta : ℚ}
    {tmpl : TRACE2_HEADER} {t : ℚ} {seis : List ℚ} {pk : List TracePacket}
    (hc : Chunked fmul MaxSample Multiplier GapValue delta tmpl t seis pk) :
    ∀ seis1 : List ℚ,
      seis1.map (fun v => decide (v = GapValue)) = seis.map (fun v => decide (v = GapValue)) →
      ∃ pk1, Chunked fmul MaxSample Multiplier1 GapValue delta tmpl t seis1 pk1 ∧
        pk1.map (fun p => p.trh2) = pk.map (fun p => p.trh2) := by
  induction hc with
  | done t =>
    intro seis1 hm
    have h0 : seis1 = [] := by simpa using hm
    subst h0
    exact ⟨[], Chunked.done t, rfl⟩
  | gap t g rest pk hg _ ih =>
    intro seis1 hm
    cases seis1 with
    | nil => simp at hm
    | cons g1 rest1 =>
      simp only [List.map_cons, List.cons.injEq, decide_eq_decide] at hm
      obtain ⟨pk1, h1, h2⟩ := ih rest1 hm.2
      exact ⟨pk1, Chunked.gap t g1 rest1 pk1 (hm.1.2 hg) h1, h2⟩
  | run t seis run rest pk hs hne hr hle hstop _ ih =>
    intro seis1 hm
    subst hs
    rw [List.map_append] at hm
    have hlenm : (run.map (fun v => decide (v = GapValue))).length = run.length :=
      List.length_map _ _
    have hrun : (seis1.take run.length).map (fun v => decide (v = GapValue))
        = run.map (fun v => decide (v = GapValue)) := by
      rw [List.map_take, hm, List.take_left' hlenm]
    have hrest : (seis1.drop run.length).map (fun v => decide (v = GapValue))
        = rest.map (fun v => decide (v = GapValue)) := by
      rw [List.map_drop, hm, List.drop_left' hlenm]
    have hlen : (seis1.take run.length).length = run.length := by
      have := congrArg List.length hrun
      simpa using this
    obtain ⟨pk1, h1, h2⟩ := ih (seis1.drop run.length) hrest
    have hne1 : seis1.take run.length ≠ [] := by
      intro h0
      rw [h0] at hlen
      exact hne (List.length_eq_zero.1 hlen.symm)
    have h1 : Chunked fmul MaxSample Multiplier1 GapValue delta tmpl
        (t + delta * ((seis1.take run.length).length : ℚ)) (seis1.drop run.length) pk1 := by
      rw [hlen]; exact h1
    refine ⟨_, Chunked.run t seis1 (seis1.take run.length) (seis1.drop run.length) pk1
      (List.take_append_drop _ _).symm hne1 (mask_nongap hrun hr) (by rw [hlen]; exact hle)
      (fun hlt => mask_stop hrest (hstop (by rw [hlen] at hlt; exact hlt))) h1, ?_⟩
    simp only [List.map_cons, h2, hlen]

/-- C20: the split is greedy: every packet written with `nsamp < MaxSample` is
followed in the source, right after its last sample, by a gap value or by the
end of the samples; and the headers of the packets (counts and times) are
determined by the positions of the gap values and `MaxSample`: samples with
the same gap positions, also with another multiplier, give packets with the
same headers. -/
theorem C20_greedy_split (fmul : ℚ → ℚ → ℚ) (MaxSample : Int) (Multiplier GapValue delta : ℚ)
    (tmpl : TRACE2_HEADER) (starttime : ℚ) (seis : List ℚ) (fuel : Nat)
    (hM : 1 ≤ MaxSample) (hfuel : seis.length ≤ fuel) :
    ∃ pk, packets fmul MaxSample Multiplier GapValue delta tmpl starttime seis fuel = some pk ∧
      (∀ p ∈ pk, ∃ s : Nat, s + p.trh2.nsamp ≤ seis.length ∧
        p.trh2.starttime = starttime + (s : ℚ) * delta ∧
        p.data = ((seis.drop s).take p.trh2.nsamp).map (fun v => int32_cast (fmul Multiplier v)) ∧
        ((p.trh2.nsamp : Int) < MaxSample →
          s + p.trh2.nsamp = seis.length ∨ seis[s + p.trh2.nsamp]? = some GapValue)) ∧
      (∀ (Multiplier1 : ℚ) (seis1 : List ℚ) (fuel1 : Nat), seis1.length ≤ fuel1 →
        seis1.map (fun v => decide (v = GapValue)) = seis.map (fun v => decide (v = GapValue)) →
        ∃ pk1, packets fmul MaxSample Multiplier1 GapValue delta tmpl starttime seis1 fuel1
            = some pk1 ∧
          pk1.map (fun p => p.trh2) = pk.map (fun p => p.trh2)) := by
  obtain ⟨pk, h1, h2⟩ := @packets_chunked fmul MaxSample Multiplier GapValue delta
    tmpl starttime seis fuel hM hfuel
  refine ⟨pk, h1, chunked_greedy h2, ?_⟩
  intro Multiplier1 seis1 fuel1 hfuel1 hm
  obtain ⟨pk1, g1, g2⟩ := @packets_chunked fmul MaxSample Multiplier1 GapValue delta
    tmpl starttime seis1 fuel1 hM hfuel1
  obtain ⟨pk2, m1, m2⟩ := chunked_mask Multiplier1 h2 seis1 hm
  have e := chunked_unique g2 pk2 m1
  exact ⟨pk1, g1, by rw [e, m2]⟩

/-- Witness of C20: `MaxSample` 3 and samples with a gap value after the second
and after the sixth of them. -/
theorem C20_greedy_split_witness :
    ∃ pk, packets exampleMul 3 1 (-12345) (1 / 100) exampleHeader 1000
        [1, 2, -12345, 3, 4, 5, -12345, 6] 8 = some pk ∧
      (∀ p ∈ pk, ∃ s : Nat,
        s + p.trh2.nsamp ≤ ([1, 2, -12345, 3, 4, 5, -12345, 6] : List ℚ).length ∧
        p.trh2.starttime = 1000 + (s : ℚ) * (1 / 100) ∧
        p.data = ((([1, 2, -12345, 3, 4, 5, -12345, 6] : List ℚ).drop s).take
          p.trh2.nsamp).map (fun v => int32_cast (exampleMul 1 v)) ∧
        ((p.trh2.nsamp : Int) < 3 →
          s + p.trh2.nsamp = ([1, 2, -12345, 3, 4, 5, -12345, 6] : List ℚ).length
          ∨ ([1, 2, -12345, 3, 4, 5, -12345, 6] : List ℚ)[s + p.trh2.nsamp]?
            = some (-12345))) ∧
      (∀ (Multiplier1 : ℚ) (seis1 : List ℚ) (fuel1 : Nat), seis1.length ≤ fuel1 →
        seis1.map (fun v => decide (v = -12345))
          = ([1, 2, -12345, 3, 4, 5, -12345, 6] : List ℚ).map (fun v => decide (v = -12345)) →
        ∃ pk1, packets exampleMul 3 Multiplier1 (-12345) (1 / 100) exampleHeader 1000 seis1 fuel1
            = some pk1 ∧
          pk1.map (fun p => p.trh2) = pk.map (fun p => p.trh2)) :=
  C20_greedy_split exampleMul 3 1 (-12345) (1 / 100) exampleHeader 1000
    [1, 2, -12345, 3, 4, 5, -12345, 6] 8 (by decide) (by decide)

/-! ## Termination -/

/-- One run of the `for` loop: every sample it leaves behind is still to go, and
the steps it makes are the samples it has consumed. -/
theorem forLoop_steps (fmul : ℚ → ℚ → ℚ) (MaxSample : Int) (Multiplier GapValue starttime delta : ℚ)
    (seis : List ℚ) (i : Nat) (mn mx : ℚ) (h : TRACE2_HEADER) (ld : List Int) :
    (forLoop fmul MaxSample Multiplier GapValue starttime delta seis i mn mx h ld).i
        + (forLoop fmul MaxSample Multiplier GapValue starttime delta seis i mn mx h ld).seis_ptr.length
      = i + seis.length := by
  obtain ⟨gaps, run, rest, hs, -, -, -, h1, h2, -, -, -, -⟩ :=
    @forLoop_spec fmul MaxSample Multiplier GapValue delta starttime seis i mn mx h ld
  rw [h1, h2, hs]
  simp only [List.length_append]
  omega

/-- A pass that starts with an empty packet, `MaxSample >= 1` and a sample to
go makes at least one step. -/
theorem forLoop_progress (fmul : ℚ → ℚ → ℚ) (MaxSample : Int) (Multiplier GapValue starttime delta : ℚ)
    (seis : List ℚ) (mn mx : ℚ) (h : TRACE2_HEADER) (ld : List Int)
    (hM : 1 ≤ MaxSample) (hn : h.nsamp = 0) (hne : seis ≠ []) :
    1 ≤ (forLoop fmul MaxSample Multiplier GapValue starttime delta seis 0 mn mx h ld).i := by
  obtain ⟨gaps, run, rest, hs, -, -, -, -, h2, -, -, -, h6⟩ :=
    @forLoop_spec fmul MaxSample Multiplier GapValue delta starttime seis 0 mn mx h ld
  rw [h2]
  by_contra hlt
  have hg : gaps = [] := List.length_eq_zero.1 (by omega)
  have hr : run = [] := List.length_eq_zero.1 (by omega)
  subst hg
  subst hr
  simp only [hn, List.length_nil, Nat.add_zero, Nat.cast_zero, ne_eq, not_true_eq_false,
    and_false, or_false] at h6
  have hrest := h6 (by omega)
  rw [hrest] at hs
  exact hne (by simpa using hs)

/-- The body of the `for` loop is entered once for every step, and at most once
more. -/
theorem forEntries_bound (fmul : ℚ → ℚ → ℚ) (MaxSample : Int) (Multiplier GapValue starttime delta : ℚ)
    (seis : List ℚ) :
    ∀ (i : Nat) (mn mx : ℚ) (h : TRACE2_HEADER) (ld : List Int),
      (forLoop fmul MaxSample Multiplier GapValue starttime delta seis i mn mx h ld).i
          ≤ i + forEntries MaxSample GapValue seis h.nsamp ∧
      i + forEntries MaxSample GapValue seis h.nsamp
          ≤ (forLoop fmul MaxSample Multiplier GapValue starttime delta seis i mn mx h ld).i + 1 := by
  induction seis with
  | nil =>
    intro i mn mx h ld
    simp [forLoop, forEntries]
  | cons v rest ih =>
    intro i mn mx h ld
    by_cases hlt : (h.nsamp : Int) < MaxSample
    · by_cases hv : v = GapValue
      · subst hv
        by_cases hn : h.nsamp = 0
        · rw [forLoop_skip starttime rest i mn mx h ld hlt hn]
          have e : forEntries MaxSample v (v :: rest) h.nsamp
              = forEntries MaxSample v rest h.nsamp + 1 := by
            rw [forEntries, if_pos hlt, if_neg (by simp), if_neg (by simp [hn])]
          obtain ⟨h1, h2⟩ := ih (i + 1) mn mx h ld
          rw [e]
          omega
        · rw [forLoop_break starttime rest i mn mx h ld hlt hn]
          have e : forEntries MaxSample v (v :: rest) h.nsamp = 1 := by
            rw [forEntries, if_pos hlt, if_neg (by simp), if_pos hn]
          rw [e]
          simp
      · rw [forLoop_take starttime v rest i mn mx h ld hlt hv]
        have e : forEntries MaxSample GapValue (v :: rest) h.nsamp
            = forEntries MaxSample GapValue rest (h.nsamp + 1) + 1 := by
          rw [forEntries, if_pos hlt, if_pos hv]
        obtain ⟨h1, h2⟩ := ih (i + 1) (if v < mn then v else mn)
          (if v < mn then mx else if v > mx then v else mx)
          { h with nsamp := h.nsamp + 1,
                   starttime := if h.nsamp = 0 then starttime + delta * i else h.starttime }
          (ld ++ [int32_cast (fmul Multiplier v)])
        rw [e]
        simp only [] at h1 h2
        omega
    · rw [forLoop_full starttime v rest i mn mx h ld hlt]
      have e : forEntries MaxSample GapValue (v :: rest) h.nsamp = 0 := by
        rw [forEntries, if_neg hlt]
      rw [e]
      simp

/-- With `MaxSample >= 1` the counted run of the `while` loop ends within `npts`
passes, after `npts` steps of the `for` statement. -/
theorem whileCount_spec (fmul : ℚ → ℚ → ℚ) (MaxSample : Int) (Multiplier GapValue delta : ℚ) (hM : 1 ≤ MaxSample) :
    ∀ (fuel : Nat) (s : MainState), s.seis_ptr.length ≤ fuel →
      ∃ c, whileCount fmul MaxSample Multiplier GapValue delta fuel s = some c ∧
        c.passes ≤ s.seis_ptr.length ∧ c.steps = s.seis_ptr.length ∧
        c.steps ≤ c.entries ∧ c.entries ≤ c.steps + c.passes := by
  intro fuel
  induction fuel with
  | zero =>
    intro s hlen
    have hnil : s.seis_ptr = [] := List.length_eq_zero.1 (Nat.le_zero.1 hlen)
    exact ⟨⟨0, 0, 0⟩, by simp [whileCount, hnil], by simp, by simp [hnil], le_refl _, le_refl _⟩
  | succ fuel ih =>
    intro s hlen
    by_cases hnil : s.seis_ptr = []
    · exact ⟨⟨0, 0, 0⟩, by simp [whileCount, hnil], by simp, by simp [hnil], le_refl _,
        le_refl _⟩
    · have hsteps := forLoop_steps fmul MaxSample Multiplier GapValue s.starttime delta s.seis_ptr 0
        s.seis_min s.seis_max { s.trh2 with pinno := 0, nsamp := 0 } []
      have hprog := forLoop_progress fmul MaxSample Multiplier GapValue s.starttime delta s.seis_ptr
        s.seis_min s.seis_max { s.trh2 with pinno := 0, nsamp := 0 } [] hM rfl hnil
      have hb : (forLoop fmul MaxSample Multiplier GapValue s.starttime delta s.seis_ptr 0 s.seis_min
            s.seis_max { s.trh2 with pinno := 0, nsamp := 0 } []).i
            ≤ 0 + forEntries MaxSample GapValue s.seis_ptr 0 ∧
          0 + forEntries MaxSample GapValue s.seis_ptr 0
            ≤ (forLoop fmul MaxSample Multiplier GapValue s.starttime delta s.seis_ptr 0 s.seis_min
              s.seis_max { s.trh2 with pinno := 0, nsamp := 0 } []).i + 1 :=
        forEntries_bound fmul MaxSample Multiplier GapValue s.starttime delta
          s.seis_ptr 0 s.seis_min s.seis_max { s.trh2 with pinno := 0, nsamp := 0 } []
      obtain ⟨hb1, hb2⟩ := hb
      have hptr : (whileBody fmul MaxSample Multiplier GapValue delta s).seis_ptr
          = (forLoop fmul MaxSample Multiplier GapValue s.starttime delta s.seis_ptr 0 s.seis_min
              s.seis_max { s.trh2 with pinno := 0, nsamp := 0 } []).seis_ptr := rfl
      obtain ⟨c, h1, h2, h3, h4, h5⟩ :=
        ih (whileBody fmul MaxSample Multiplier GapValue delta s) (by rw [hptr]; omega)
      rw [hptr] at h2 h3
      refine ⟨⟨c.passes + 1,
          c.steps + (forLoop fmul MaxSample Multiplier GapValue s.starttime delta s.seis_ptr 0
            s.seis_min s.seis_max { s.trh2 with pinno := 0, nsamp := 0 } []).i,
          c.entries + forEntries MaxSample GapValue s.seis_ptr 0⟩, ?_, ?_, ?_, ?_, ?_⟩
      · rw [whileCount, if_neg hnil, h1]
        rfl
      · show c.passes + 1 ≤ s.seis_ptr.length
        omega
      · show c.steps + (forLoop fmul MaxSample Multiplier GapValue s.starttime delta s.seis_ptr 0
            s.seis_min s.seis_max { s.trh2 with pinno := 0, nsamp := 0 } []).i
          = s.seis_ptr.length
        omega
      · show c.steps + (forLoop fmul MaxSample Multiplier GapValue s.starttime delta s.seis_ptr 0
            s.seis_min s.seis_max { s.trh2 with pinno := 0, nsamp := 0 } []).i
          ≤ c.entries + forEntries MaxSample GapValue s.seis_ptr 0
        omega
      · show c.entries + forEntries MaxSample GapValue s.seis_ptr 0
          ≤ c.steps + (forLoop fmul MaxSample Multiplier GapValue s.starttime delta s.seis_ptr 0
            s.seis_min s.seis_max { s.trh2 with pinno := 0, nsamp := 0 } []).i
            + (c.passes + 1)
        omega

/-- C21: for every sample count `npts >= 0`, sample array, gap value and
`MaxSample >= 1` the chunking loop terminates: every pass through the body of
the `while` loop consumes at least one source sample, so the loop is left
within `npts` passes, and the step `i++, seis_ptr++, npts--` of the `for`
statement, which is what consumes a sample, is executed exactly `npts` times in
all.  (The body of the `for` statement is entered once for each step and once
more in a pass that is left at the `break`.) -/
theorem C21_termination (fmul : ℚ → ℚ → ℚ) (MaxSample : Int) (Multiplier GapValue delta : ℚ)
    (tmpl : TRACE2_HEADER) (starttime : ℚ) (seis : List ℚ) (fuel : Nat)
    (hM : 1 ≤ MaxSample) (hfuel : seis.length ≤ fuel) :
    (∃ s1 c, whileLoop fmul MaxSample Multiplier GapValue delta fuel (initState tmpl starttime seis)
        = some s1 ∧ s1.seis_ptr = [] ∧
      whileCount fmul MaxSample Multiplier GapValue delta fuel (initState tmpl starttime seis)
        = some c ∧
      c.passes ≤ seis.length ∧ c.steps = seis.length ∧
      c.steps ≤ c.entries ∧ c.entries ≤ c.steps + c.passes) ∧
    (∀ s : MainState, s.seis_ptr ≠ [] →
      (whileBody fmul MaxSample Multiplier GapValue delta s).seis_ptr.length
        < s.seis_ptr.length) := by
  constructor
  · obtain ⟨s1, pk, e1, -, e3, -⟩ := @whileLoop_chunked fmul MaxSample Multiplier GapValue delta
      tmpl hM fuel (initState tmpl starttime seis) hfuel (fun _ _ _ => rfl)
    obtain ⟨c, h1, h2, h3, h4, h5⟩ := whileCount_spec fmul MaxSample Multiplier GapValue delta hM
      fuel (initState tmpl starttime seis) hfuel
    exact ⟨s1, c, e1, e3, h1, h2, h3, h4, h5⟩
  · intro s hnil
    have hsteps := forLoop_steps fmul MaxSample Multiplier GapValue s.starttime delta s.seis_ptr 0
      s.seis_min s.seis_max { s.trh2 with pinno := 0, nsamp := 0 } []
    have hprog := forLoop_progress fmul MaxSample Multiplier GapValue s.starttime delta s.seis_ptr
      s.seis_min s.seis_max { s.trh2 with pinno := 0, nsamp := 0 } [] hM rfl hnil
    have hptr : (whileBody fmul MaxSample Multiplier GapValue delta s).seis_ptr
        = (forLoop fmul MaxSample Multiplier GapValue s.starttime delta s.seis_ptr 0 s.seis_min
            s.seis_max { s.trh2 with pinno := 0, nsamp := 0 } []).seis_ptr := rfl
    rw [hptr]
    omega

/-- Witness of C21: three samples, the second the gap value, `MaxSample` 3: two
passes and three steps; the body of the `for` statement is entered four
times, once more than the steps for the `break` that ends the first pass. -/
theorem C21_termination_witness :
    ((∃ s1 c, whileLoop exampleMul 3 1 (-12345) (1 / 100) 3 (initState exampleHeader 1000 [1, -12345, 2])
        = some s1 ∧ s1.seis_ptr = [] ∧
      whileCount exampleMul 3 1 (-12345) (1 / 100) 3 (initState exampleHeader 1000 [1, -12345, 2])
        = some c ∧
      c.passes ≤ ([1, -12345, 2] : List ℚ).length ∧ c.steps = ([1, -12345, 2] : List ℚ).length ∧
      c.steps ≤ c.entries ∧ c.entries ≤ c.steps + c.passes) ∧
    (∀ s : MainState, s.seis_ptr ≠ [] →
      (whileBody exampleMul 3 1 (-12345) (1 / 100) s).seis_ptr.length < s.seis_ptr.length)) ∧
    whileCount exampleMul 3 1 (-12345) (1 / 100) 3 (initState exampleHeader 1000 [1, -12345, 2])
      = some ⟨2, 3, 4⟩ :=
  ⟨C21_termination exampleMul 3 1 (-12345) (1 / 100) exampleHeader 1000 [1, -12345, 2] 3
    (by decide) (by decide), by decide⟩

end Sac2tnk
